import Mathlib

/-!
# Job queue, result store and sidecar naming of `examples/qt6/main.cpp`

A shallow embedding of the scheduling core of `MainWindow` (the pending queue
`jobQueue_`, the counter `completedJobs_`, the single worker slot
`currentWorker_`), of the persisted "GeneratedImages" settings group, and of
`GenerationWorker::run` with the sidecar file name it computes.

Conventions of the embedding.

* Slots of `MainWindow` are functions on an explicit state record; calls whose
  only result is an effect on a collaborator (`start()`, `terminate()`,
  `deleteLater()`, `addTab`) are recorded in log fields of that record.
* `int` counters are unbounded integers (signed overflow of `completedJobs_`
  would need 2^31 completed jobs and is undefined behaviour in C++).
* `float`/`double` values are only stored and copied, never computed with; a
  value is represented by the IEEE 754 bit pattern of the `float`.
* Qt's JSON reader and writer are a parameter (`JsonCodec`); the settings
  group is a map from full key to stored text, in which `remove` also takes
  the sub-settings `key/...` of the key away.
-/

namespace SDQt

/-! ## Data model -/

/-- The C++ enumeration `enum SDMode { TXT2IMG, IMG2IMG, CONVERT }`. -/
inductive SDMode where
  | TXT2IMG
  | IMG2IMG
  | CONVERT
  deriving DecidableEq, Repr

/-- A C `float`, given by its IEEE 754 bit pattern. The program only stores and
copies such values. -/
structure CFloat where
  bits : Nat
  deriving DecidableEq, Repr

/-- The C++ record `struct SDParams`, with the defaults of its member initialisers.
`sample_method` is the integer value of the `sample_method_t` enumerator
(`EULER_A` is the first one); the bit patterns are those of `7.0f`, `3.5f` and
`0.75f`. -/
structure SDParams where
  mode : SDMode := SDMode.TXT2IMG
  model_path : String := ""
  vae_path : String := ""
  output_path : String := "output.png"
  input_path : String := ""
  prompt : String := ""
  negative_prompt : String := ""
  cfg_scale : CFloat := ⟨0x40E00000⟩
  guidance : CFloat := ⟨0x40600000⟩
  width : Int := 512
  height : Int := 512
  sample_steps : Int := 20
  strength : CFloat := ⟨0x3F400000⟩
  sample_method : Int := 0
  seed : Int := 42
  n_threads : Int := -1
  verbose : Bool := false
  deriving DecidableEq, Repr

/-- The values held by the form widgets of `MainWindow` when a slot reads them:
the current entry of the three-item `modeCombo_`, the text of the line and text
edits, the values of the spin boxes (the `double` spin boxes as the `float`
that `generate` stores), the index of `samplerCombo_` and the check box. -/
structure Form where
  modeCombo_ : SDMode := SDMode.TXT2IMG
  modelPath_ : String := ""
  vaePath_ : String := ""
  outputPath_ : String := "output.png"
  inputPath_ : String := ""
  prompt_ : String := ""
  negativePrompt_ : String := ""
  cfgScale_ : CFloat := ⟨0x40E00000⟩
  guidance_ : CFloat := ⟨0x40600000⟩
  width_ : Int := 512
  height_ : Int := 512
  steps_ : Int := 20
  strength_ : CFloat := ⟨0x3F400000⟩
  samplerCombo_ : Int := 0
  seed_ : Int := 42
  threads_ : Int := -1
  verbose_ : Bool := false
  deriving DecidableEq, Repr

/-! ## Keyed containers

`QJsonObject` and the key map behind `QSettings` keep one entry per key, in the
order of the keys. -/

/-- The order of two keys, character by character (by code point). -/
def charsLess : List Char → List Char → Bool
  | _, [] => false
  | [], _ :: _ => true
  | a :: as, b :: bs =>
    if a.toNat < b.toNat then true
    else if a.toNat = b.toNat then charsLess as bs
    else false

/-- Insertion of an entry with a new key at its place in the key order. -/
def orderedInsert {α : Type} : List (String × α) → String → α → List (String × α)
  | [], key, v => [(key, v)]
  | (k, v0) :: rest, key, v =>
    if charsLess key.data k.data = true then (key, v) :: (k, v0) :: rest
    else (k, v0) :: orderedInsert rest key v

/-- Assignment to a key: the entry of the key is replaced when there is one, and
a new entry is inserted at its place in the key order otherwise. -/
def assignKey {α : Type} (m : List (String × α)) (key : String) (v : α) : List (String × α) :=
  if m.any (fun e => decide (e.1 = key)) = true
  then m.map (fun e => if e.1 = key then (key, v) else e)
  else orderedInsert m key v

/-! ## JSON documents -/

/-- A value of a `QJsonObject` member. A `double` is given by the `float` it was
converted from; `nested` stands for an array or an object value, which this
program neither builds nor inspects. -/
inductive QJsonValue where
  | undefined
  | null
  | bool (b : Bool)
  | integer (i : Int)
  | double (d : CFloat)
  | string (s : String)
  | nested
  deriving DecidableEq, Repr

/-- The result of `QJsonValue::toString()`: the string of a string value, the
null (empty) string for every other kind of value. -/
def QJsonValue.toString : QJsonValue → String
  | QJsonValue.string s => s
  | _ => ""

/-- A `QJsonObject`: members in the order the object keeps them, one per key. -/
abbrev QJsonObject := List (String × QJsonValue)

/-- The result of `QJsonObject::value(key)`: the member's value, `undefined` when the
object has no such member. -/
def QJsonObject.value : QJsonObject → String → QJsonValue
  | [], _ => QJsonValue.undefined
  | (k, v) :: rest, key => if key = k then v else QJsonObject.value rest key

/-- The assignment `obj[key] = v`: replaces the member `key` when it is there,
inserts it at its place in the key order otherwise. -/
def QJsonObject.insert (obj : QJsonObject) (key : String) (v : QJsonValue) : QJsonObject :=
  assignKey obj key v

/-- Test `QJsonObject::contains(key)`. -/
def QJsonObject.contains (obj : QJsonObject) (key : String) : Bool :=
  obj.any (fun m => m.1 == key)

/-- The two layouts of `QJsonDocument::toJson`. -/
inductive JsonFormat where
  | Indented
  | Compact
  deriving DecidableEq, Repr

/-- Qt's JSON writer and reader, which are not part of the program:
`toJson fmt obj` is the text of `QJsonDocument(obj).toJson(fmt)` and
`fromJson text` is `QJsonDocument::fromJson(text.toUtf8()).object()`, the empty
object when the text is not a JSON object. -/
structure JsonCodec where
  toJson : JsonFormat → QJsonObject → String
  fromJson : String → QJsonObject

/-! ## The worker: serialised arguments and sidecar name -/

/-- The text written for the mode by `formatArguments`. -/
def modeName (mode : SDMode) : String :=
  if mode = SDMode.TXT2IMG then "txt2img"
  else if mode = SDMode.IMG2IMG then "img2img" else "convert"

/-- The `QJsonObject json` built by `GenerationWorker::formatArguments`. -/
def formatArgumentsObject (params_ : SDParams) : QJsonObject :=
  let json : QJsonObject := []
  let json := json.insert "mode" (QJsonValue.string (modeName params_.mode))
  let json := json.insert "model" (QJsonValue.string params_.model_path)
  let json := if params_.vae_path ≠ ""
    then json.insert "vae" (QJsonValue.string params_.vae_path) else json
  if params_.mode ≠ SDMode.CONVERT then
    let json := json.insert "prompt" (QJsonValue.string params_.prompt)
    let json := if params_.negative_prompt ≠ ""
      then json.insert "negative_prompt" (QJsonValue.string params_.negative_prompt) else json
    let json := json.insert "cfg_scale" (QJsonValue.double params_.cfg_scale)
    let json := json.insert "width" (QJsonValue.integer params_.width)
    let json := json.insert "height" (QJsonValue.integer params_.height)
    let json := json.insert "steps" (QJsonValue.integer params_.sample_steps)
    json.insert "seed" (QJsonValue.integer params_.seed)
  else json

/-- The method `GenerationWorker::formatArguments`: the indented text of the object. -/
def formatArguments (js : JsonCodec) (params_ : SDParams) : String :=
  js.toJson JsonFormat.Indented (formatArgumentsObject params_)

/-- The result of `std::string::find_last_of(c)` on the characters `s`: the index of
the last occurrence of `c`, `none` for `npos`. -/
def find_last_of : List Char → Char → Option Nat
  | [], _ => none
  | x :: rest, c =>
    match find_last_of rest c with
    | some i => some (i + 1)
    | none => if x = c then some 0 else none

/-- The sidecar file name `txt_path` that `GenerationWorker::run` computes from
`params_.output_path` after a successful write. -/
def txt_path (output_path : String) : String :=
  match find_last_of output_path.data '.' with
  | some dot_pos => String.mk (output_path.data.take dot_pos) ++ ".txt"
  | none => output_path ++ ".txt"

/-! ## The settings group "GeneratedImages" -/

/-- The content of the `QSettings` group "GeneratedImages": the map from key (the
full key inside the group, sub-settings written `key/sub`) to stored text, in
the order of `allKeys()`. -/
abbrev SettingsGroup := List (String × String)

/-- The result of `QSettings::allKeys()` inside the group. -/
def SettingsGroup.allKeys (g : SettingsGroup) : List String :=
  g.map Prod.fst

/-- The result of `QSettings::value(key).toString()`: the stored text, the empty
string when the key is absent. -/
def SettingsGroup.value : SettingsGroup → String → String
  | [], _ => ""
  | (k, v) :: rest, key => if key = k then v else SettingsGroup.value rest key

/-- The call `QSettings::setValue(key, v)`: an empty key is refused with a warning
and nothing is stored; otherwise the entry is written, replacing an old one. -/
def SettingsGroup.setValue (g : SettingsGroup) (key v : String) : SettingsGroup :=
  if key = "" then g else assignKey g key v

/-- Whether the characters `l` begin with the characters `start`. -/
def charsStartWith : List Char → List Char → Bool
  | [], _ => true
  | _ :: _, [] => false
  | a :: start, b :: l => if a = b then charsStartWith start l else false

/-- Whether the key `k` names a sub-setting of the key `key`: `k` is `key`, a '/'
and whatever follows. -/
def isSubSetting (key k : String) : Bool :=
  charsStartWith (key.data ++ ['/']) k.data

/-- The call `QSettings::remove(key)`: removes the setting `key` and any
sub-settings of `key`; with an empty key it removes every entry of the current
group. -/
def SettingsGroup.remove (g : SettingsGroup) (key : String) : SettingsGroup :=
  if key = "" then []
  else g.filter (fun e => decide (e.1 ≠ key) && !isSubSetting key e.1)

/-- Whether no key of the group names a sub-setting of a key of the group, as in
every group whose keys are file names. -/
def SettingsGroup.flat (g : SettingsGroup) : Bool :=
  g.allKeys.all (fun k1 => g.allKeys.all (fun k2 => !isSubSetting k1 k2))

/-- The result of `QFileInfo(path).fileName()`: the part of the path after its last '/'. -/
def fileName (path : String) : String :=
  match find_last_of path.data '/' with
  | some i => String.mk (path.data.drop (i + 1))
  | none => path

/-! ## The main window: scheduler state and slots -/

/-- The arguments of the signal `GenerationWorker::finished`. -/
structure Outcome where
  success : Bool
  message : String
  imagePath : String
  arguments : String
  deriving DecidableEq, Repr

/-- The members of `MainWindow` read or written by the job slots, followed by
the log of their effects on collaborators.
`currentWorker_` is `none` for `nullptr` and otherwise holds the parameters the
worker was constructed with. -/
structure MainWindow where
  jobQueue_ : List SDParams := []
  completedJobs_ : Int := 0
  currentWorker_ : Option SDParams := none
  /-- Visibility of `progressBar_`. -/
  progressBarVisible : Bool := false
  /-- Visibility of `jobsProgressLabel_`. -/
  jobsProgressLabelVisible : Bool := false
  /-- Enabledness of `cancelBtn_`. -/
  cancelBtnEnabled : Bool := false
  /-- The two numbers shown by `jobsProgressLabel_` ("Completed Jobs: %1/%2"). -/
  jobsProgressText : Int × Int := (0, 0)
  /-- The form values last written by `saveSettings`. -/
  savedSettings : Option Form := none
  /-- The settings group "GeneratedImages". -/
  generatedImages : SettingsGroup := []
  /-- Calls of `addResultTab(imagePath, arguments)`, oldest first. -/
  resultTabs : List (String × String) := []
  /-- Parameters of the workers on which `start()` was called, oldest first. -/
  started : List SDParams := []
  /-- Number of `terminate()` calls on a worker. -/
  terminated : Nat := 0
  /-- Number of `deleteLater()` calls on a worker. -/
  deleted : Nat := 0
  deriving DecidableEq, Repr

/-- The window after `setupUI` and before any event, with an empty settings store. -/
def MainWindow.initial : MainWindow := {}

/-- The `SDParams params` that `generate` fills from the form. -/
def paramsOfForm (f : Form) : SDParams :=
  { mode := f.modeCombo_
    model_path := f.modelPath_
    vae_path := f.vaePath_
    output_path := f.outputPath_
    input_path := f.inputPath_
    prompt := f.prompt_
    negative_prompt := f.negativePrompt_
    cfg_scale := f.cfgScale_
    guidance := f.guidance_
    width := f.width_
    height := f.height_
    sample_steps := f.steps_
    strength := f.strength_
    sample_method := f.samplerCombo_
    seed := f.seed_
    n_threads := f.threads_
    verbose := f.verbose_ }

/-- The local `total` of `MainWindow::updateJobsProgress`. -/
def jobsTotal (w : MainWindow) : Int :=
  let total : Int :=
    w.completedJobs_ + (w.jobQueue_.length : Int) + (if w.currentWorker_.isSome then 1 else 0)
  if total = 0 then 1 else total

/-- The term `(currentWorker_ ? 1 : 0)`: the number of running workers. -/
def activeJobs (w : MainWindow) : Nat :=
  if w.currentWorker_.isSome then 1 else 0

/-- The slot `MainWindow::updateJobsProgress`. -/
def updateJobsProgress (w : MainWindow) : MainWindow :=
  let total := jobsTotal w
  let w := { w with jobsProgressText := (w.completedJobs_, total) }
  if w.completedJobs_ = total then { w with completedJobs_ := 0 } else w

/-- The slot `MainWindow::processNextJob`. -/
def processNextJob (w : MainWindow) : MainWindow :=
  match w.currentWorker_ with
  | some _ => w
  | none =>
    match w.jobQueue_ with
    | [] =>
      { w with progressBarVisible := false, jobsProgressLabelVisible := false,
               cancelBtnEnabled := false }
    | params :: rest =>
      { w with progressBarVisible := true, jobsProgressLabelVisible := true,
               cancelBtnEnabled := true,
               jobQueue_ := rest,
               currentWorker_ := some params,
               started := w.started ++ [params] }

/-- The slot `MainWindow::generate`, the form holding the values `f`. -/
def generate (w : MainWindow) (f : Form) : MainWindow :=
  if f.modelPath_ = "" then w
  else
    let w := { w with savedSettings := some f }
    let params := paramsOfForm f
    let w := { w with jobQueue_ := w.jobQueue_ ++ [params] }
    let w := updateJobsProgress w
    processNextJob w

/-- The method `MainWindow::addResultTab`. -/
def addResultTab (w : MainWindow) (imagePath arguments : String) : MainWindow :=
  { w with resultTabs := w.resultTabs ++ [(imagePath, arguments)] }

/-- The method `MainWindow::saveImageToSettings`. -/
def saveImageToSettings (js : JsonCodec) (w : MainWindow) (imagePath arguments : String) :
    MainWindow :=
  let key := fileName imagePath
  let obj := js.fromJson arguments
  let obj := obj.insert "output_path" (QJsonValue.string imagePath)
  { w with generatedImages := w.generatedImages.setValue key (js.toJson JsonFormat.Compact obj) }

/-- The method `MainWindow::removeImageFromSettings`. -/
def removeImageFromSettings (w : MainWindow) (imagePath : String) : MainWindow :=
  { w with generatedImages := w.generatedImages.remove (fileName imagePath) }

/-- The `imagePath` that `loadPersistedImages` reads from a stored text:
`doc.object().value("output_path").toString()`. -/
def storedImagePath (js : JsonCodec) (arguments : String) : String :=
  ((js.fromJson arguments).value "output_path").toString

/-- The test `!imagePath.isEmpty() && QFile::exists(imagePath)` of
`loadPersistedImages` on a stored text; `fileExists` is `QFile::exists` on the
file system of the moment. -/
def artifactExists (js : JsonCodec) (fileExists : String → Bool) (arguments : String) : Bool :=
  decide (storedImagePath js arguments ≠ "") && fileExists (storedImagePath js arguments)

/-- One round of the loop of `MainWindow::loadPersistedImages`, for the key `key`. -/
def loadPersistedImage (js : JsonCodec) (fileExists : String → Bool) (w : MainWindow)
    (key : String) : MainWindow :=
  let arguments := w.generatedImages.value key
  let imagePath := storedImagePath js arguments
  if artifactExists js fileExists arguments = true then addResultTab w imagePath arguments
  else { w with generatedImages := w.generatedImages.remove key }

/-- The method `MainWindow::loadPersistedImages`: the loop over the keys the group
had on entry. -/
def loadPersistedImages (js : JsonCodec) (fileExists : String → Bool) (w : MainWindow) :
    MainWindow :=
  w.generatedImages.allKeys.foldl (loadPersistedImage js fileExists) w

/-- The slot `MainWindow::onGenerationFinished`. -/
def onGenerationFinished (js : JsonCodec) (w : MainWindow) (o : Outcome) : MainWindow :=
  let w := { w with completedJobs_ := w.completedJobs_ + 1 }
  let w := updateJobsProgress w
  let w := if o.success = true
    then saveImageToSettings js (addResultTab w o.imagePath o.arguments) o.imagePath o.arguments
    else w
  let w := { w with deleted := w.deleted + 1 }
  let w := { w with currentWorker_ := none }
  processNextJob w

/-- The slot `MainWindow::cancelJob`. -/
def cancelJob (w : MainWindow) : MainWindow :=
  if w.currentWorker_.isSome then
    { w with terminated := w.terminated + 1,
             deleted := w.deleted + 1,
             currentWorker_ := none,
             progressBarVisible := false,
             jobsProgressLabelVisible := false,
             cancelBtnEnabled := false }
  else w

/-! ## Event traces -/

/-- What can reach the job slots: a click on Generate with the form holding `f`,
the `finished` signal of the running worker, a call of `cancelJob`. -/
inductive Event where
  | generate (f : Form)
  | finished (o : Outcome)
  | cancel
  deriving DecidableEq, Repr

/-- One event. The `finished` signal has a sender only while a worker is running;
without one the event cannot occur (`none`). -/
def step (js : JsonCodec) (w : MainWindow) : Event → Option MainWindow
  | Event.generate f => some (generate w f)
  | Event.finished o =>
    if w.currentWorker_.isSome then some (onGenerationFinished js w o) else none
  | Event.cancel => some (cancelJob w)

/-- A sequence of events, from the state `w`. -/
def runEvents (js : JsonCodec) (w : MainWindow) : List Event → Option MainWindow
  | [] => some w
  | e :: rest =>
    match step js w e with
    | some w1 => runEvents js w1 rest
    | none => none

/-- The jobs of the accepted submits of a trace, in order: one for every Generate
click whose form has a non-empty model path. -/
def submittedJobs : List Event → List SDParams
  | [] => []
  | Event.generate f :: rest =>
    if f.modelPath_ = "" then submittedJobs rest else paramsOfForm f :: submittedJobs rest
  | _ :: rest => submittedJobs rest

/-- The number of `finished` signals in a trace. -/
def finishedCount : List Event → Nat
  | [] => 0
  | Event.finished _ :: rest => finishedCount rest + 1
  | _ :: rest => finishedCount rest

/-- Whether a trace has no cancel event. -/
def noCancel : List Event → Bool
  | [] => true
  | Event.cancel :: _ => false
  | _ :: rest => noCancel rest

/-! ## Accounting of submits and cancels along a trace -/

/-- The test `completedJobs_ == total` of `updateJobsProgress`: whether the call
resets the counter. -/
def resetsCompleted (w : MainWindow) : Bool :=
  decide (w.completedJobs_ = jobsTotal w)

/-- Bookkeeping beside a run: the accepted submits and the cancelled running
jobs since `completedJobs_` was last reset to 0 (since start-up before the
first reset). -/
structure Ledger where
  submitted : Nat := 0
  cancelled : Nat := 0
  deriving DecidableEq, Repr

/-- The ledger after the event `e` is handled in the state `w`: an accepted
submit and a cancel of a running job are counted, and a call of
`updateJobsProgress` that resets the counter starts the count afresh. -/
def Ledger.step (w : MainWindow) (l : Ledger) : Event → Ledger
  | Event.generate f =>
    if f.modelPath_ = "" then l
    else if resetsCompleted { w with jobQueue_ := w.jobQueue_ ++ [paramsOfForm f] } = true
      then {}
      else { l with submitted := l.submitted + 1 }
  | Event.finished _ =>
    if resetsCompleted { w with completedJobs_ := w.completedJobs_ + 1 } = true then {} else l
  | Event.cancel =>
    if w.currentWorker_.isSome then { l with cancelled := l.cancelled + 1 } else l

/-- A run together with its ledger. -/
def runLedger (js : JsonCodec) (w : MainWindow) (l : Ledger) :
    List Event → Option (MainWindow × Ledger)
  | [] => some (w, l)
  | e :: rest =>
    match step js w e with
    | some w1 => runLedger js w1 (Ledger.step w l e) rest
    | none => none

/-! ## The sidecar name the specification asks for -/

/-- The sidecar name in the specification's words: in the directory of the output
image, the file name of the image with its final extension replaced by ".txt",
or with ".txt" appended when the file name has no extension. -/
def sidecarOfSpec (output_path : String) : String :=
  let name := fileName output_path
  let dir := String.mk (output_path.data.take (output_path.length - name.length))
  match find_last_of name.data '.' with
  | some dot_pos => dir ++ String.mk (name.data.take dot_pos) ++ ".txt"
  | none => dir ++ name ++ ".txt"

/-! ## The worker: `run` as a trace of calls -/

/-- The native objects that `GenerationWorker::run` obtains and frees: the engine
context `sd_ctx`, the buffer returned by `stbi_load`, the buffer `resized`
taken from `malloc`, the array `results` and the pixel buffer
`results[0].data`. -/
inductive Resource where
  | sd_ctx
  | loaded
  | resized
  | results
  | results_data
  deriving DecidableEq, Repr

/-- What `txt2img` or `img2img` returns: a null pointer, an array whose first
entry has no data, or an array whose first entry holds an image buffer. -/
inductive GenerationResult where
  | null
  | noData
  | image
  deriving DecidableEq, Repr

/-- The results of the collaborator calls of one run: `convert`, `new_sd_ctx`
(whether the pointer is non-null), `stbi_load` (`none` for a null pointer,
otherwise the width and height of the image read), `txt2img` or `img2img`,
`stbi_write_png`, and `txt_file.is_open()`. -/
structure Collaborators where
  convert : Bool := true
  new_sd_ctx : Bool := true
  stbi_load : Option (Int × Int) := none
  generation : GenerationResult := GenerationResult.image
  stbi_write_png : Bool := true
  txt_file_is_open : Bool := true
  deriving DecidableEq, Repr

/-- The calls of a run that the trace records: a native object is obtained, a
native object is freed, `stbi_write_png` is called for a path, the sidecar text
is written to a path, the signal `finished` is emitted. -/
inductive Action where
  | obtain (r : Resource)
  | free (r : Resource)
  | writeImage (path : String)
  | writeSidecar (path text : String)
  | emit (o : Outcome)
  deriving DecidableEq, Repr

/-- The objects that come with the value returned by `txt2img` or `img2img`. -/
def obtainResults : GenerationResult → List Action
  | GenerationResult.null => []
  | GenerationResult.noData => [Action.obtain Resource.results]
  | GenerationResult.image =>
    [Action.obtain Resource.results, Action.obtain Resource.results_data]

/-- The end of `GenerationWorker::run`, from `bool success = false;` on, the
generation call having returned `results`. -/
def runTail (js : JsonCodec) (params_ : SDParams) (c : Collaborators)
    (results : GenerationResult) : List Action :=
  let args := formatArguments js params_
  let success := decide (results = GenerationResult.image) && c.stbi_write_png
  (if results = GenerationResult.image then
    [Action.writeImage params_.output_path]
      ++ (if c.stbi_write_png = true ∧ c.txt_file_is_open = true
          then [Action.writeSidecar (txt_path params_.output_path) args] else [])
      ++ [Action.free Resource.results_data]
   else [])
  ++ (if results ≠ GenerationResult.null then [Action.free Resource.results] else [])
  ++ [Action.free Resource.sd_ctx,
      Action.emit
        { success := success
          message := if success = true then "Generation completed" else "Generation failed"
          imagePath := if success = true then params_.output_path else ""
          arguments := args }]

/-- The method `GenerationWorker::run`, as the trace of its calls for the collaborator
results `c`. -/
def GenerationWorker.run (js : JsonCodec) (params_ : SDParams) (c : Collaborators) :
    List Action :=
  let args := formatArguments js params_
  if params_.mode = SDMode.CONVERT then
    let success := c.convert
    [Action.emit
      { success := success
        message := if success = true then "Conversion completed" else "Conversion failed"
        imagePath := if success = true then params_.output_path else ""
        arguments := args }]
  else if c.new_sd_ctx = false then
    [Action.emit
      { success := false, message := "Failed to initialize SD context", imagePath := "",
        arguments := args }]
  else if params_.mode = SDMode.TXT2IMG then
    [Action.obtain Resource.sd_ctx] ++ obtainResults c.generation
      ++ runTail js params_ c c.generation
  else if params_.mode = SDMode.IMG2IMG then
    match c.stbi_load with
    | none =>
      [Action.obtain Resource.sd_ctx, Action.free Resource.sd_ctx,
       Action.emit
        { success := false, message := "Failed to load input image", imagePath := "",
          arguments := args }]
    | some (w, h) =>
      if w ≠ params_.width ∨ h ≠ params_.height then
        [Action.obtain Resource.sd_ctx, Action.obtain Resource.loaded,
         Action.obtain Resource.resized, Action.free Resource.loaded]
          ++ obtainResults c.generation ++ [Action.free Resource.resized]
          ++ runTail js params_ c c.generation
      else
        [Action.obtain Resource.sd_ctx, Action.obtain Resource.loaded]
          ++ obtainResults c.generation ++ [Action.free Resource.loaded]
          ++ runTail js params_ c c.generation
  else
    [Action.obtain Resource.sd_ctx] ++ runTail js params_ c GenerationResult.null

/-- How often a trace obtains the object `r`. -/
def obtained (r : Resource) (t : List Action) : Nat :=
  t.count (Action.obtain r)

/-- How often a trace frees the object `r`. -/
def freed (r : Resource) (t : List Action) : Nat :=
  t.count (Action.free r)

/-- The outcomes a trace emits, in order. -/
def emitted : List Action → List Outcome
  | [] => []
  | Action.emit o :: rest => o :: emitted rest
  | _ :: rest => emitted rest

/-- Where one native object stands in the course of a run: not yet obtained,
obtained and not yet freed, or freed. -/
inductive Stage where
  | fresh
  | held
  | released
  deriving DecidableEq, Repr

/-- The stage of the object `r` after a trace, started at the stage `s`: the object
may be obtained only while fresh and freed only while held; `none` when the
trace does otherwise. -/
def stageAfter (r : Resource) : Stage → List Action → Option Stage
  | s, [] => some s
  | s, Action.obtain r1 :: t =>
    if r1 = r then (if s = Stage.fresh then stageAfter r Stage.held t else none)
    else stageAfter r s t
  | s, Action.free r1 :: t =>
    if r1 = r then (if s = Stage.held then stageAfter r Stage.released t else none)
    else stageAfter r s t
  | s, _ :: t => stageAfter r s t

/-- How often an object at the stage `s` has been obtained. -/
def Stage.obtainedSoFar : Stage → Nat
  | Stage.fresh => 0
  | Stage.held => 1
  | Stage.released => 1

/-- How often an object at the stage `s` has been freed. -/
def Stage.freedSoFar : Stage → Nat
  | Stage.fresh => 0
  | Stage.held => 0
  | Stage.released => 1

/-- Whether a run gets as far as the call of `txt2img` or `img2img`: the mode is a
generation mode, the engine context is there, and in image mode the source
image was read. -/
def reachesGeneration (params_ : SDParams) (c : Collaborators) : Bool :=
  decide (params_.mode ≠ SDMode.CONVERT) && c.new_sd_ctx
    && (decide (params_.mode ≠ SDMode.IMG2IMG) || c.stbi_load.isSome)

/-- Whether the collaborators hand the object `r` to the run: the context when
`new_sd_ctx` returns one, the source image when `stbi_load` is reached and
returns one, the resized buffer when the size read differs from the size asked
for, the result array and its image buffer when the generation call is
reached and returns them. -/
def handsOut (params_ : SDParams) (c : Collaborators) : Resource → Bool
  | Resource.sd_ctx => decide (params_.mode ≠ SDMode.CONVERT) && c.new_sd_ctx
  | Resource.loaded =>
    decide (params_.mode = SDMode.IMG2IMG) && c.new_sd_ctx && c.stbi_load.isSome
  | Resource.resized =>
    decide (params_.mode = SDMode.IMG2IMG) && c.new_sd_ctx &&
      (match c.stbi_load with
       | some (w, h) => decide (w ≠ params_.width ∨ h ≠ params_.height)
       | none => false)
  | Resource.results =>
    reachesGeneration params_ c && decide (c.generation ≠ GenerationResult.null)
  | Resource.results_data =>
    reachesGeneration params_ c && decide (c.generation = GenerationResult.image)

/-! ## Concrete inputs -/

/-- Text of a member value in the stand-in codec. -/
def demoValueText : QJsonValue → String
  | QJsonValue.undefined => "undefined"
  | QJsonValue.null => "null"
  | QJsonValue.bool b => if b then "true" else "false"
  | QJsonValue.integer i => toString i
  | QJsonValue.double d => "0x" ++ toString d.bits
  | QJsonValue.string s => "\"" ++ s ++ "\""
  | QJsonValue.nested => "[]"

/-- Text of the members of an object in the stand-in codec. -/
def demoMembersText (sep : String) : QJsonObject → String
  | [] => ""
  | (k, v) :: rest => sep ++ "\"" ++ k ++ "\":" ++ demoValueText v ++ demoMembersText sep rest

/-- Text of an object in the stand-in codec. -/
def demoText (fmt : JsonFormat) (obj : QJsonObject) : String :=
  match fmt with
  | JsonFormat.Indented => "\x7b" ++ demoMembersText "\n  " obj ++ "\n\x7d"
  | JsonFormat.Compact => "\x7b" ++ demoMembersText ";" obj ++ "\x7d"

/-- A form asking for a text-to-image job. -/
def demoTxt2img : Form :=
  { modelPath_ := "sd.gguf", prompt_ := "a cat", outputPath_ := "out/cat.png" }

/-- A form asking for a second text-to-image job. -/
def demoSecond : Form :=
  { modelPath_ := "sd.gguf", prompt_ := "a dog", outputPath_ := "out/dog.png" }

/-- A form asking for a model conversion, the prompt edit still holding text. -/
def demoConvert : Form :=
  { modeCombo_ := SDMode.CONVERT, modelPath_ := "sd.gguf", prompt_ := "a cat",
    outputPath_ := "out/sd.bin" }

/-- A text-to-image form with every field filled in but the model path. -/
def demoNoModel : Form :=
  { modelPath_ := "", prompt_ := "a cat", outputPath_ := "out/cat.png" }

/-- An image-to-image form with a model path and with empty output and
source-image paths. -/
def demoNoPaths : Form :=
  { modeCombo_ := SDMode.IMG2IMG, modelPath_ := "sd.gguf", outputPath_ := "",
    inputPath_ := "" }

/-- The documents the stand-in codec can read back. -/
def demoDocuments : List QJsonObject :=
  [ formatArgumentsObject (paramsOfForm demoTxt2img),
    (formatArgumentsObject (paramsOfForm demoTxt2img)).insert "output_path"
      (QJsonValue.string "out/cat.png"),
    (formatArgumentsObject (paramsOfForm demoSecond)).insert "output_path"
      (QJsonValue.string "out/dog.png"),
    formatArgumentsObject (paramsOfForm demoConvert),
    (formatArgumentsObject (paramsOfForm demoConvert)).insert "output_path"
      (QJsonValue.string "out/sd.bin") ]

/-- A stand-in for Qt's JSON codec, to run the model on concrete inputs: it writes
the text `demoText` and reads back the documents of `demoDocuments`; every
other text is read as the empty object. -/
def demoJs : JsonCodec :=
  { toJson := demoText
    fromJson := fun text =>
      match demoDocuments.find?
        (fun obj => demoText JsonFormat.Indented obj == text
          || demoText JsonFormat.Compact obj == text) with
      | some obj => obj
      | none => [] }

/-- The text `saveImageToSettings` stores for the job of the form `f`. -/
def demoStoredText (f : Form) : String :=
  demoJs.toJson JsonFormat.Compact
    ((formatArgumentsObject (paramsOfForm f)).insert "output_path"
      (QJsonValue.string f.outputPath_))

/-- A window whose settings group holds the record of "out/cat.png", the record
of "out/dog.png" and an entry that is not a JSON object. -/
def demoStored : MainWindow :=
  { generatedImages :=
      [("cat.png", demoStoredText demoTxt2img), ("dog.png", demoStoredText demoSecond),
       ("note", "not json")] }

/-- A window whose settings group holds an entry "a" that is not a JSON object and,
as its sub-setting "a/b", the record of "out/cat.png". -/
def demoNested : MainWindow :=
  { generatedImages := [("a", "not json"), ("a/b", demoStoredText demoTxt2img)] }

/-- A file system on which "out/cat.png" is the only file. -/
def demoFiles : String → Bool :=
  fun path => path == "out/cat.png"

/-- A successful outcome of the job of `demoTxt2img`. -/
def demoSuccess : Outcome :=
  { success := true, message := "Generation completed", imagePath := "out/cat.png",
    arguments := formatArguments demoJs (paramsOfForm demoTxt2img) }

/-- A failed outcome of the job of `demoSecond`. -/
def demoFailure : Outcome :=
  { success := false, message := "Generation failed", imagePath := "",
    arguments := formatArguments demoJs (paramsOfForm demoSecond) }

/-- Two accepted submits, then the completion of both jobs in turn. -/
def demoTrace : List Event :=
  [Event.generate demoTxt2img, Event.generate demoSecond,
   Event.finished demoSuccess, Event.finished demoFailure]

/-- An image-to-image job whose requested size is 512 by 512. -/
def demoImg2img : SDParams :=
  { mode := SDMode.IMG2IMG, model_path := "sd.gguf", input_path := "in.png",
    output_path := "out/cat.png", prompt := "a cat" }

/-- Collaborator results of a run whose engine context cannot be created. -/
def demoNoContext : Collaborators :=
  { new_sd_ctx := false }

/-- Collaborator results of a run whose source image cannot be read. -/
def demoNoImage : Collaborators :=
  { stbi_load := none }

/-- Collaborator results of a run whose source image is 640 by 480, whose
generation returns an image, and whose image file cannot be written. -/
def demoNoWrite : Collaborators :=
  { stbi_load := some (640, 480), stbi_write_png := false }

/-- Collaborator results of a run in which every call succeeds, the source image
being 640 by 480. -/
def demoAllFine : Collaborators :=
  { stbi_load := some (640, 480) }

/-! ## Lemmas on the slots and on runs -/

@[simp] theorem updateJobsProgress_jobQueue (w : MainWindow) :
    (updateJobsProgress w).jobQueue_ = w.jobQueue_ := by
  unfold updateJobsProgress; simp only []; split <;> rfl

@[simp] theorem updateJobsProgress_currentWorker (w : MainWindow) :
    (updateJobsProgress w).currentWorker_ = w.currentWorker_ := by
  unfold updateJobsProgress; simp only []; split <;> rfl

@[simp] theorem updateJobsProgress_started (w : MainWindow) :
    (updateJobsProgress w).started = w.started := by
  unfold updateJobsProgress; simp only []; split <;> rfl

@[simp] theorem updateJobsProgress_deleted (w : MainWindow) :
    (updateJobsProgress w).deleted = w.deleted := by
  unfold updateJobsProgress; simp only []; split <;> rfl

theorem updateJobsProgress_completedJobs (w : MainWindow) :
    (updateJobsProgress w).completedJobs_
      = if w.completedJobs_ = jobsTotal w then 0 else w.completedJobs_ := by
  unfold updateJobsProgress; simp only []; split <;> rfl

theorem completedJobs_ne_jobsTotal (w : MainWindow)
    (h : w.jobQueue_ ≠ [] ∨ w.currentWorker_.isSome = true) :
    w.completedJobs_ ≠ jobsTotal w := by
  have hq : w.jobQueue_ ≠ [] → 0 < (w.jobQueue_.length : Int) := by
    intro hne
    have := List.length_pos.mpr hne
    omega
  unfold jobsTotal
  simp only []
  rcases h with h | h
  · have := hq h
    split <;> split <;> omega
  · rw [h]
    simp only [if_true]
    split <;> omega

theorem processNextJob_frame (u : MainWindow) :
    (processNextJob u).completedJobs_ = u.completedJobs_ ∧
    (processNextJob u).deleted = u.deleted := by
  unfold processNextJob
  cases u.currentWorker_ with
  | some x => simp
  | none => cases u.jobQueue_ <;> simp

theorem processNextJob_cases (u : MainWindow) :
    (∃ x, u.currentWorker_ = some x ∧ processNextJob u = u) ∨
    (u.currentWorker_ = none ∧ u.jobQueue_ = [] ∧
      (processNextJob u).currentWorker_ = none ∧ (processNextJob u).jobQueue_ = [] ∧
      (processNextJob u).started = u.started) ∨
    (∃ hd tl, u.currentWorker_ = none ∧ u.jobQueue_ = hd :: tl ∧
      (processNextJob u).currentWorker_ = some hd ∧ (processNextJob u).jobQueue_ = tl ∧
      (processNextJob u).started = u.started ++ [hd]) := by
  unfold processNextJob
  cases hw : u.currentWorker_ with
  | some x => exact Or.inl ⟨x, rfl, rfl⟩
  | none =>
    cases hq : u.jobQueue_ with
    | nil => exact Or.inr (Or.inl ⟨rfl, rfl, rfl, rfl, rfl⟩)
    | cons a t => exact Or.inr (Or.inr ⟨a, t, rfl, rfl, rfl, rfl, rfl⟩)

theorem generate_rejected (w : MainWindow) (f : Form) (h : f.modelPath_ = "") :
    generate w f = w := by
  unfold generate; rw [if_pos h]

theorem generate_accepted (w : MainWindow) (f : Form) (h : f.modelPath_ ≠ "") :
    ∃ u, generate w f = processNextJob u ∧
      u.jobQueue_ = w.jobQueue_ ++ [paramsOfForm f] ∧
      u.currentWorker_ = w.currentWorker_ ∧
      u.completedJobs_ = w.completedJobs_ ∧
      u.started = w.started ∧ u.deleted = w.deleted := by
  refine ⟨_, by unfold generate; rw [if_neg h], ?_, ?_, ?_, ?_, ?_⟩
  · simp
  · simp
  · rw [updateJobsProgress_completedJobs]
    exact if_neg (completedJobs_ne_jobsTotal _ (Or.inl (by simp)))
  · simp
  · simp

theorem onGenerationFinished_running (js : JsonCodec) (w : MainWindow) (o : Outcome)
    (h : w.currentWorker_.isSome = true) :
    ∃ u, onGenerationFinished js w o = processNextJob u ∧
      u.jobQueue_ = w.jobQueue_ ∧
      u.currentWorker_ = none ∧
      u.completedJobs_ = w.completedJobs_ + 1 ∧
      u.started = w.started ∧ u.deleted = w.deleted + 1 := by
  have hc : (updateJobsProgress { w with completedJobs_ := w.completedJobs_ + 1 }).completedJobs_
      = w.completedJobs_ + 1 := by
    rw [updateJobsProgress_completedJobs]
    exact if_neg
      (completedJobs_ne_jobsTotal { w with completedJobs_ := w.completedJobs_ + 1 } (Or.inr h))
  refine ⟨_, by unfold onGenerationFinished; rfl, ?_, ?_, ?_, ?_, ?_⟩
  · cases o.success <;> simp [saveImageToSettings, addResultTab]
  · rfl
  · cases o.success <;> simp [saveImageToSettings, addResultTab, hc]
  · cases o.success <;> simp [saveImageToSettings, addResultTab]
  · cases o.success <;> simp [saveImageToSettings, addResultTab]

theorem cancelJob_cases (w : MainWindow) :
    (w.currentWorker_ = none ∧ cancelJob w = w) ∨
    (∃ x, w.currentWorker_ = some x ∧ (cancelJob w).currentWorker_ = none ∧
      (cancelJob w).jobQueue_ = w.jobQueue_ ∧
      (cancelJob w).completedJobs_ = w.completedJobs_ ∧
      (cancelJob w).started = w.started ∧
      (cancelJob w).deleted = w.deleted + 1) := by
  unfold cancelJob
  cases hw : w.currentWorker_ with
  | none => exact Or.inl ⟨rfl, by simp⟩
  | some x => exact Or.inr ⟨x, rfl, by simp⟩

theorem runEvents_append (js : JsonCodec) (w : MainWindow) (a b : List Event) :
    runEvents js w (a ++ b) = (runEvents js w a).bind (fun w1 => runEvents js w1 b) := by
  induction a generalizing w with
  | nil => rfl
  | cons e rest ih =>
    simp only [List.cons_append, runEvents]
    cases step js w e with
    | none => rfl
    | some w1 => exact ih w1

theorem runEvents_snoc (js : JsonCodec) (w w2 : MainWindow) (evs : List Event) (e : Event) :
    runEvents js w (evs ++ [e]) = some w2 ↔
      ∃ w1, runEvents js w evs = some w1 ∧ step js w1 e = some w2 := by
  rw [runEvents_append]
  cases h : runEvents js w evs with
  | none => simp
  | some w1 =>
    simp only [Option.some_bind, runEvents, Option.some.injEq, exists_eq_left']
    cases step js w1 e <;> simp

theorem submittedJobs_append (a b : List Event) :
    submittedJobs (a ++ b) = submittedJobs a ++ submittedJobs b := by
  induction a with
  | nil => rfl
  | cons e rest ih =>
    cases e with
    | generate f =>
      simp only [List.cons_append, submittedJobs]
      split <;> simp [ih]
    | finished o => simpa [submittedJobs] using ih
    | cancel => simpa [submittedJobs] using ih

theorem finishedCount_append (a b : List Event) :
    finishedCount (a ++ b) = finishedCount a + finishedCount b := by
  induction a with
  | nil => simp [finishedCount]
  | cons e rest ih =>
    cases e with
    | generate f => simpa [finishedCount] using ih
    | finished o => simp [finishedCount, ih]; omega
    | cancel => simpa [finishedCount] using ih

theorem noCancel_append (a b : List Event) :
    noCancel (a ++ b) = (noCancel a && noCancel b) := by
  induction a with
  | nil => simp [noCancel]
  | cons e rest ih =>
    cases e <;> simp [noCancel, ih]

/-- Preservation of a property of states along a run. -/
theorem runEvents_preserves (js : JsonCodec) (P : MainWindow → Prop)
    (hstep : ∀ w e w1, P w → step js w e = some w1 → P w1)
    (w0 : MainWindow) (evs : List Event) (w : MainWindow)
    (h0 : P w0) (hr : runEvents js w0 evs = some w) : P w := by
  induction evs generalizing w0 with
  | nil =>
    simp only [runEvents, Option.some.injEq] at hr
    exact hr ▸ h0
  | cons e rest ih =>
    simp only [runEvents] at hr
    cases hs : step js w0 e with
    | none => rw [hs] at hr; simp at hr
    | some w1 =>
      rw [hs] at hr
      exact ih w1 (hstep w0 e w1 h0 hs) hr

/-- In every step the number of started workers stays the number of deleted ones
plus the running one. -/
theorem step_workers (js : JsonCodec) (w : MainWindow) (e : Event) (w1 : MainWindow)
    (hi : w.started.length = w.deleted + activeJobs w)
    (hs : step js w e = some w1) :
    w1.started.length = w1.deleted + activeJobs w1 := by
  unfold activeJobs at hi ⊢
  cases e with
  | generate f =>
    simp only [step, Option.some.injEq] at hs
    subst hs
    by_cases hm : f.modelPath_ = ""
    · rw [generate_rejected w f hm]; exact hi
    · obtain ⟨u, hg, hq, hw, -, hst, hd⟩ := generate_accepted w f hm
      rw [hg]
      have hf := (processNextJob_frame u).2
      rcases processNextJob_cases u with ⟨x, hx, hp⟩ | ⟨hn, -, hc, -, hs2⟩ | ⟨a, t, hn, -, hc, -, hs2⟩
      · rw [hp, hst, hd, hw]; exact hi
      · rw [hf, hc, hs2, hst, hd]; rw [← hw, hn] at hi; simpa using hi
      · rw [hf, hc, hs2, hst, hd]; rw [← hw, hn] at hi; simp at hi ⊢; omega
  | finished o =>
    simp only [step] at hs
    split at hs
    · rename_i hsome
      simp only [Option.some.injEq] at hs
      subst hs
      obtain ⟨u, hg, hq, hw, -, hst, hd⟩ := onGenerationFinished_running js w o hsome
      rw [hg]
      have hf := (processNextJob_frame u).2
      rw [hsome] at hi
      rcases processNextJob_cases u with ⟨x, hx, hp⟩ | ⟨hn, -, hc, -, hs2⟩ | ⟨a, t, hn, -, hc, -, hs2⟩
      · rw [hw] at hx; simp at hx
      · rw [hf, hc, hs2, hst, hd]; simp at hi ⊢; omega
      · rw [hf, hc, hs2, hst, hd]; simp at hi ⊢; omega
    · simp at hs
  | cancel =>
    simp only [step, Option.some.injEq] at hs
    subst hs
    rcases cancelJob_cases w with ⟨-, hc⟩ | ⟨x, hx, hc, -, -, hs2, hd⟩
    · rw [hc]; exact hi
    · rw [hc, hs2, hd]; rw [hx] at hi; simp at hi ⊢; omega

/-- Runs without cancel: the started jobs followed by the pending ones are the
submitted ones, every started job but the running one has finished, and an
empty worker slot goes with an empty queue. -/
theorem runEvents_fifo_invariant (js : JsonCodec) (evs : List Event) (w : MainWindow)
    (hc : noCancel evs = true) (hr : runEvents js MainWindow.initial evs = some w) :
    w.started ++ w.jobQueue_ = submittedJobs evs ∧
    w.started.length = finishedCount evs + activeJobs w ∧
    (w.currentWorker_ = none → w.jobQueue_ = []) := by
  induction evs using List.reverseRecOn generalizing w with
  | nil =>
    simp only [runEvents, Option.some.injEq] at hr
    subst hr
    simp [MainWindow.initial, submittedJobs, finishedCount, activeJobs]
  | append_singleton evs e ih =>
    rw [noCancel_append, Bool.and_eq_true] at hc
    obtain ⟨w0, hr0, hs⟩ := (runEvents_snoc js _ w evs e).mp hr
    obtain ⟨i1, i2, i3⟩ := ih w0 hc.1 hr0
    rw [submittedJobs_append, finishedCount_append, ← i1]
    unfold activeJobs at i2 ⊢
    cases e with
    | generate f =>
      simp only [step, Option.some.injEq] at hs
      subst hs
      by_cases hm : f.modelPath_ = ""
      · rw [generate_rejected w0 f hm]
        exact ⟨by simp [submittedJobs, hm], by simpa [finishedCount] using i2, i3⟩
      · obtain ⟨u, hg, hq, hw, -, hst, -⟩ := generate_accepted w0 f hm
        rw [hg]
        simp only [submittedJobs, finishedCount, if_neg hm]
        rcases processNextJob_cases u with
          ⟨x, hx, hp⟩ | ⟨hn, hqn, -, -, -⟩ | ⟨a, t, hn, hqc, hcw, hqt, hs2⟩
        · rw [hp, hst, hq, hw]
          rw [hw] at hx
          refine ⟨by simp, by simpa using i2, ?_⟩
          intro h; rw [hx] at h; simp at h
        · rw [hq] at hqn; simp at hqn
        · rw [hcw, hqt, hs2, hst]
          rw [hw] at hn
          have h3 := i3 hn
          rw [h3] at hq
          rw [hq] at hqc
          simp only [List.nil_append, List.cons.injEq] at hqc
          obtain ⟨rfl, rfl⟩ := hqc
          rw [hn] at i2
          refine ⟨by simp [h3], by simp at i2 ⊢; omega, ?_⟩
          intro h; simp at h
    | finished o =>
      simp only [step] at hs
      split at hs
      · rename_i hsome
        simp only [Option.some.injEq] at hs
        subst hs
        obtain ⟨u, hg, hq, hw, -, hst, -⟩ := onGenerationFinished_running js w0 o hsome
        rw [hg]
        rw [hsome] at i2
        simp only [submittedJobs, finishedCount]
        rcases processNextJob_cases u with
          ⟨x, hx, hp⟩ | ⟨hn, hqn, hcw, hqt, hs2⟩ | ⟨a, t, hn, hqc, hcw, hqt, hs2⟩
        · rw [hw] at hx; simp at hx
        · rw [hcw, hqt, hs2, hst]
          rw [hq] at hqn
          refine ⟨by simp [hqn], by simp at i2 ⊢; omega, fun _ => rfl⟩
        · rw [hcw, hqt, hs2, hst]
          rw [hq] at hqc
          refine ⟨by simp [hqc], by simp at i2 ⊢; omega, ?_⟩
          intro h; simp at h
      · simp at hs
    | cancel => simp [noCancel] at hc

/-- A running worker and its pending queue are worked off by as many completions
as there are jobs left, whatever their outcomes. -/
theorem runEvents_drain (js : JsonCodec) (q : List SDParams) (w : MainWindow) (outs : List Outcome)
    (hw : w.currentWorker_.isSome = true) (hq : w.jobQueue_ = q)
    (hl : outs.length = q.length + 1) :
    ∃ w1, runEvents js w (outs.map Event.finished) = some w1 ∧
      w1.currentWorker_ = none ∧ w1.jobQueue_ = [] ∧ w1.started = w.started ++ q := by
  induction q generalizing w outs with
  | nil =>
    match outs, hl with
    | [o], _ =>
      obtain ⟨u, hg, huq, huw, -, hst, -⟩ := onGenerationFinished_running js w o hw
      refine ⟨onGenerationFinished js w o, by simp [runEvents, step, hw], ?_⟩
      rw [hg]
      rcases processNextJob_cases u with
        ⟨x, hx, -⟩ | ⟨-, -, hcw, hqt, hs2⟩ | ⟨a, t, -, hqc, -, -, -⟩
      · rw [huw] at hx; simp at hx
      · exact ⟨hcw, hqt, by rw [hs2, hst]; simp⟩
      · rw [huq, hq] at hqc; simp at hqc
  | cons p rest ih =>
    match outs, hl with
    | o :: outs1, hl1 =>
      obtain ⟨u, hg, huq, huw, -, hst, -⟩ := onGenerationFinished_running js w o hw
      rcases processNextJob_cases u with
        ⟨x, hx, -⟩ | ⟨-, hqn, -, -, -⟩ | ⟨a, t, -, hqc, hcw, hqt, hs2⟩
      · rw [huw] at hx; simp at hx
      · rw [huq, hq] at hqn; simp at hqn
      · rw [huq, hq] at hqc
        simp only [List.cons.injEq] at hqc
        obtain ⟨rfl, rfl⟩ := hqc
        have hl2 : outs1.length = rest.length + 1 := by simpa using hl1
        obtain ⟨w1, hr1, h1, h2, h3⟩ :=
          ih (onGenerationFinished js w o) outs1 (by rw [hg, hcw]; rfl) (by rw [hg, hqt]) hl2
        refine ⟨w1, by simpa [runEvents, step, hw] using hr1, h1, h2, ?_⟩
        rw [h3, hg, hs2, hst]; simp

/-- The counter `completedJobs_` is the number of completions handled: the reset
in `updateJobsProgress` never fires in a run. -/
theorem runEvents_completedJobs (js : JsonCodec) (evs : List Event) (w : MainWindow)
    (hr : runEvents js MainWindow.initial evs = some w) :
    w.completedJobs_ = (finishedCount evs : Int) := by
  induction evs using List.reverseRecOn generalizing w with
  | nil =>
    simp only [runEvents, Option.some.injEq] at hr
    subst hr
    rfl
  | append_singleton evs e ih =>
    obtain ⟨w0, hr0, hs⟩ := (runEvents_snoc js _ w evs e).mp hr
    have i0 := ih w0 hr0
    rw [finishedCount_append]
    cases e with
    | generate f =>
      simp only [step, Option.some.injEq] at hs
      subst hs
      by_cases hm : f.modelPath_ = ""
      · rw [generate_rejected w0 f hm]; simpa [finishedCount] using i0
      · obtain ⟨u, hg, -, -, hcj, -, -⟩ := generate_accepted w0 f hm
        rw [hg, (processNextJob_frame u).1, hcj]
        simpa [finishedCount] using i0
    | finished o =>
      simp only [step] at hs
      split at hs
      · rename_i hsome
        simp only [Option.some.injEq] at hs
        subst hs
        obtain ⟨u, hg, -, -, hcj, -, -⟩ := onGenerationFinished_running js w0 o hsome
        rw [hg, (processNextJob_frame u).1, hcj, i0]
        simp [finishedCount]
      · simp at hs
    | cancel =>
      simp only [step, Option.some.injEq] at hs
      subst hs
      rcases cancelJob_cases w0 with ⟨-, hc⟩ | ⟨x, -, -, -, hcj, -, -⟩
      · rw [hc]; simpa [finishedCount] using i0
      · rw [hcj]; simpa [finishedCount] using i0

/-- Generate clicks are always handled. -/
theorem runEvents_generate_isSome (js : JsonCodec) (fs : List Form) (w : MainWindow) :
    ∃ w1, runEvents js w (fs.map Event.generate) = some w1 := by
  induction fs generalizing w with
  | nil => exact ⟨w, rfl⟩
  | cons f rest ih =>
    obtain ⟨w1, h1⟩ := ih (generate w f)
    exact ⟨w1, by simpa [runEvents, step] using h1⟩

theorem submittedJobs_generate (fs : List Form) (hf : ∀ f ∈ fs, f.modelPath_ ≠ "") :
    submittedJobs (fs.map Event.generate) = fs.map paramsOfForm := by
  induction fs with
  | nil => rfl
  | cons f rest ih =>
    have h1 : f.modelPath_ ≠ "" := hf f (List.mem_cons_self f rest)
    have h2 := ih (fun g hg => hf g (List.mem_cons_of_mem f hg))
    simp [submittedJobs, h1, h2]

theorem finishedCount_generate (fs : List Form) :
    finishedCount (fs.map Event.generate) = 0 := by
  induction fs with
  | nil => rfl
  | cons f rest ih => simpa [finishedCount] using ih

theorem finishedCount_finished (outs : List Outcome) :
    finishedCount (outs.map Event.finished) = outs.length := by
  induction outs with
  | nil => rfl
  | cons o rest ih => simp [finishedCount, ih]

theorem noCancel_generate (fs : List Form) :
    noCancel (fs.map Event.generate) = true := by
  induction fs with
  | nil => rfl
  | cons f rest ih => simpa [noCancel] using ih

/-- The ledger equation survives every step. -/
theorem step_ledger (js : JsonCodec) (w : MainWindow) (l : Ledger) (e : Event)
    (w1 : MainWindow)
    (hi : w.completedJobs_ + (w.jobQueue_.length : Int) + (activeJobs w : Int)
      + (l.cancelled : Int) = (l.submitted : Int))
    (hs : step js w e = some w1) :
    w1.completedJobs_ + (w1.jobQueue_.length : Int) + (activeJobs w1 : Int)
      + ((Ledger.step w l e).cancelled : Int) = ((Ledger.step w l e).submitted : Int) := by
  unfold activeJobs at hi ⊢
  cases e with
  | generate f =>
    simp only [step, Option.some.injEq] at hs
    subst hs
    by_cases hm : f.modelPath_ = ""
    · rw [generate_rejected w f hm]
      simpa [Ledger.step, hm] using hi
    · have hno : resetsCompleted { w with jobQueue_ := w.jobQueue_ ++ [paramsOfForm f] }
          = false := by
        unfold resetsCompleted
        exact decide_eq_false
          (completedJobs_ne_jobsTotal
            { w with jobQueue_ := w.jobQueue_ ++ [paramsOfForm f] } (Or.inl (by simp)))
      obtain ⟨u, hg, hq, hw, hcj, -, -⟩ := generate_accepted w f hm
      simp only [Ledger.step, if_neg hm, hno, Bool.false_eq_true, if_false]
      rw [hg]
      rcases processNextJob_cases u with
        ⟨x, hx, hp⟩ | ⟨hn, hqn, -, -, -⟩ | ⟨a, t, hn, hqc, hcw, hqt, -⟩
      · rw [hp, hq, hw, hcj]
        rw [hw] at hx
        rw [hx] at hi ⊢
        simp at hi ⊢
        omega
      · rw [hq] at hqn; simp at hqn
      · rw [(processNextJob_frame u).1, hcj, hcw, hqt]
        rw [hw] at hn
        rw [hn] at hi
        have hlen : (w.jobQueue_.length : Int) + 1 = (t.length : Int) + 1 := by
          have := congrArg List.length hqc
          rw [hq] at this
          simp at this
          omega
        simp at hi ⊢
        omega
  | finished o =>
    simp only [step] at hs
    split at hs
    · rename_i hsome
      simp only [Option.some.injEq] at hs
      subst hs
      have hno : resetsCompleted { w with completedJobs_ := w.completedJobs_ + 1 } = false := by
        unfold resetsCompleted
        exact decide_eq_false
          (completedJobs_ne_jobsTotal
            { w with completedJobs_ := w.completedJobs_ + 1 } (Or.inr hsome))
      obtain ⟨u, hg, hq, hw, hcj, -, -⟩ := onGenerationFinished_running js w o hsome
      simp only [Ledger.step, hno, Bool.false_eq_true, if_false]
      rw [hg, (processNextJob_frame u).1, hcj]
      rw [hsome] at hi
      rcases processNextJob_cases u with
        ⟨x, hx, hp⟩ | ⟨-, hqn, hcw, hqt, -⟩ | ⟨a, t, -, hqc, hcw, hqt, -⟩
      · rw [hw] at hx; simp at hx
      · rw [hcw, hqt]
        rw [hq] at hqn
        rw [hqn] at hi
        simp at hi ⊢
        omega
      · rw [hcw, hqt]
        rw [hq] at hqc
        rw [hqc] at hi
        simp at hi ⊢
        omega
    · simp at hs
  | cancel =>
    simp only [step, Option.some.injEq] at hs
    subst hs
    rcases cancelJob_cases w with ⟨hn, hc⟩ | ⟨x, hx, hcw, hq, hcj, -, -⟩
    · rw [hc]
      simpa [Ledger.step, hn] using hi
    · rw [hcw, hq, hcj]
      rw [hx] at hi
      simp [Ledger.step, hx] at hi ⊢
      omega

/-- The ledger equation along a run. -/
theorem runLedger_preserves (js : JsonCodec) (evs : List Event) (w0 : MainWindow)
    (l0 : Ledger) (w : MainWindow) (l : Ledger)
    (h0 : w0.completedJobs_ + (w0.jobQueue_.length : Int) + (activeJobs w0 : Int)
      + (l0.cancelled : Int) = (l0.submitted : Int))
    (hr : runLedger js w0 l0 evs = some (w, l)) :
    w.completedJobs_ + (w.jobQueue_.length : Int) + (activeJobs w : Int)
      + (l.cancelled : Int) = (l.submitted : Int) := by
  induction evs generalizing w0 l0 with
  | nil =>
    simp only [runLedger, Option.some.injEq, Prod.mk.injEq] at hr
    obtain ⟨rfl, rfl⟩ := hr
    exact h0
  | cons e rest ih =>
    simp only [runLedger] at hr
    cases hs : step js w0 e with
    | none => rw [hs] at hr; simp at hr
    | some w1 =>
      rw [hs] at hr
      exact ih w1 (Ledger.step w0 l0 e) (step_ledger js w0 l0 e w1 h0 hs) hr

/-! ## Lemmas on the settings group and on JSON objects -/

theorem SettingsGroup.value_append_cons (pre suf : SettingsGroup) (k v : String)
    (hk : k ∉ pre.map Prod.fst) :
    SettingsGroup.value (pre ++ (k, v) :: suf) k = v := by
  induction pre with
  | nil => simp [SettingsGroup.value]
  | cons e rest ih =>
    obtain ⟨k0, v0⟩ := e
    simp only [List.map_cons, List.mem_cons, not_or] at hk
    simp only [List.cons_append, SettingsGroup.value, if_neg hk.1]
    exact ih hk.2

theorem SettingsGroup.remove_absent (g : SettingsGroup) (k : String)
    (hne : k ≠ "") (hk : k ∉ g.map Prod.fst)
    (hsub : ∀ k2 ∈ g.map Prod.fst, isSubSetting k k2 = false) :
    SettingsGroup.remove g k = g := by
  unfold SettingsGroup.remove
  rw [if_neg hne]
  apply List.filter_eq_self.mpr
  intro e he
  have h1 : e.1 ≠ k := fun h => hk (h ▸ List.mem_map_of_mem Prod.fst he)
  have h2 := hsub e.1 (List.mem_map_of_mem Prod.fst he)
  simp [h1, h2]

theorem SettingsGroup.remove_append_cons (pre suf : SettingsGroup) (k v : String)
    (hne : k ≠ "") (hp : k ∉ pre.map Prod.fst) (hs : k ∉ suf.map Prod.fst)
    (hpsub : ∀ k2 ∈ pre.map Prod.fst, isSubSetting k k2 = false)
    (hssub : ∀ k2 ∈ suf.map Prod.fst, isSubSetting k k2 = false) :
    SettingsGroup.remove (pre ++ (k, v) :: suf) k = pre ++ suf := by
  have h1 := SettingsGroup.remove_absent pre k hne hp hpsub
  have h2 := SettingsGroup.remove_absent suf k hne hs hssub
  unfold SettingsGroup.remove at h1 h2 ⊢
  rw [if_neg hne] at h1 h2 ⊢
  rw [List.filter_append, List.filter_cons, h1, h2]
  simp

/-- The loop of `loadPersistedImages` over the entries `suf` still to visit, the
entries `pre` before them having been kept, in a group without sub-settings. -/
theorem loadPersistedImages_loop (js : JsonCodec) (fileExists : String → Bool)
    (suf pre : SettingsGroup) (w : MainWindow)
    (hg : w.generatedImages = pre ++ suf)
    (hk : ((pre ++ suf).map Prod.fst).Nodup)
    (he : "" ∉ (pre ++ suf).map Prod.fst)
    (hflat : ∀ k1 ∈ (pre ++ suf).map Prod.fst, ∀ k2 ∈ (pre ++ suf).map Prod.fst,
      isSubSetting k1 k2 = false) :
    ((suf.map Prod.fst).foldl (loadPersistedImage js fileExists) w).generatedImages
      = pre ++ suf.filter (fun e => artifactExists js fileExists e.2) ∧
    ((suf.map Prod.fst).foldl (loadPersistedImage js fileExists) w).resultTabs
      = w.resultTabs ++ (suf.filter (fun e => artifactExists js fileExists e.2)).map
          (fun e => (storedImagePath js e.2, e.2)) := by
  induction suf generalizing pre w with
  | nil => simp [hg]
  | cons e rest ih =>
    obtain ⟨k, v⟩ := e
    have hnd : k ∉ pre.map Prod.fst ∧ k ∉ rest.map Prod.fst ∧
        ((pre ++ rest).map Prod.fst).Nodup := by
      simp only [List.map_append, List.map_cons] at hk
      have h1 := List.nodup_append.mp hk
      have h2 := List.nodup_cons.mp h1.2.1
      refine ⟨fun hin => h1.2.2 hin (List.mem_cons_self _ _), h2.1, ?_⟩
      rw [List.map_append]
      exact List.nodup_append.mpr ⟨h1.1, h2.2,
        fun a ha hb => h1.2.2 ha (List.mem_cons_of_mem _ hb)⟩
    have hsubset : ∀ k2 ∈ (pre ++ rest).map Prod.fst,
        k2 ∈ (pre ++ (k, v) :: rest).map Prod.fst := by
      intro k2 hin
      rw [List.map_append, List.mem_append] at hin ⊢
      rcases hin with h | h
      · exact Or.inl h
      · exact Or.inr (by rw [List.map_cons]; exact List.mem_cons_of_mem _ h)
    have hkin : k ∈ (pre ++ (k, v) :: rest).map Prod.fst := by
      rw [List.map_append, List.map_cons, List.mem_append]
      exact Or.inr (List.mem_cons_self _ _)
    have hne : k ≠ "" := fun h => he (h ▸ hkin)
    have hval : w.generatedImages.value k = v := by
      rw [hg]; exact SettingsGroup.value_append_cons pre rest k v hnd.1
    simp only [List.map_cons, List.foldl_cons]
    by_cases hkeep : artifactExists js fileExists v = true
    · have hstep : loadPersistedImage js fileExists w k
          = addResultTab w (storedImagePath js v) v := by
        unfold loadPersistedImage
        simp only [hval, hkeep, if_true]
      rw [hstep]
      have hg1 : (addResultTab w (storedImagePath js v) v).generatedImages
          = (pre ++ [(k, v)]) ++ rest := by
        simp [addResultTab, hg]
      obtain ⟨a, b⟩ := ih (pre ++ [(k, v)]) (addResultTab w (storedImagePath js v) v) hg1
        (by simpa using hk) (by simpa using he) (by simpa using hflat)
      rw [a, b]
      simp [List.filter_cons, hkeep, addResultTab]
    · have hstep : loadPersistedImage js fileExists w k
          = { w with generatedImages := pre ++ rest } := by
        unfold loadPersistedImage
        simp only [hval, hkeep, Bool.false_eq_true, if_false]
        rw [hg, SettingsGroup.remove_append_cons pre rest k v hne hnd.1 hnd.2.1
          (fun k2 h2 => hflat k hkin k2
            (hsubset k2 (by rw [List.map_append]; exact List.mem_append_left _ h2)))
          (fun k2 h2 => hflat k hkin k2
            (hsubset k2 (by rw [List.map_append]; exact List.mem_append_right _ h2)))]
      rw [hstep]
      obtain ⟨a, b⟩ := ih pre { w with generatedImages := pre ++ rest } rfl hnd.2.2
        (fun hin => he (hsubset _ hin))
        (fun k1 h1 k2 h2 => hflat k1 (hsubset k1 h1) k2 (hsubset k2 h2))
      rw [a, b]
      simp [List.filter_cons, hkeep]

/-- The tabs added and the records kept by `loadPersistedImages` in a group without
sub-settings. -/
theorem loadPersistedImages_result (js : JsonCodec) (fileExists : String → Bool)
    (w : MainWindow)
    (hk : w.generatedImages.allKeys.Nodup) (he : "" ∉ w.generatedImages.allKeys)
    (hflat : w.generatedImages.flat = true) :
    (loadPersistedImages js fileExists w).resultTabs
      = w.resultTabs ++
        (w.generatedImages.filter (fun e => artifactExists js fileExists e.2)).map
          (fun e => (storedImagePath js e.2, e.2)) ∧
    (loadPersistedImages js fileExists w).generatedImages
      = w.generatedImages.filter (fun e => artifactExists js fileExists e.2) := by
  have hf : ∀ k1 ∈ w.generatedImages.map Prod.fst, ∀ k2 ∈ w.generatedImages.map Prod.fst,
      isSubSetting k1 k2 = false := by
    intro k1 h1 k2 h2
    unfold SettingsGroup.flat SettingsGroup.allKeys at hflat
    have := List.all_eq_true.mp (List.all_eq_true.mp hflat k1 h1) k2 h2
    simpa using this
  unfold SettingsGroup.allKeys at hk he
  obtain ⟨a, b⟩ := loadPersistedImages_loop js fileExists w.generatedImages [] w rfl
    (by simpa using hk) (by simpa using he) (by simpa using hf)
  unfold loadPersistedImages SettingsGroup.allKeys
  exact ⟨b, by simpa using a⟩

/-- After the last occurrence of a character, the character does not occur. -/
theorem find_last_of_spec (l : List Char) (c : Char) :
    match find_last_of l c with
    | some i => c ∉ l.drop (i + 1)
    | none => c ∉ l := by
  induction l with
  | nil => simp [find_last_of]
  | cons x rest ih =>
    unfold find_last_of
    cases h : find_last_of rest c with
    | some i =>
      rw [h] at ih
      simpa using ih
    | none =>
      rw [h] at ih
      simp only at ih ⊢
      by_cases hx : x = c
      · rw [if_pos hx]
        simpa using ih
      · rw [if_neg hx]
        simp only [List.mem_cons, not_or]
        exact ⟨fun h => hx h.symm, ih⟩

/-- A file name holds no '/'. -/
theorem fileName_no_slash (path : String) : '/' ∉ (fileName path).data := by
  have h := find_last_of_spec path.data '/'
  unfold fileName
  cases hf : find_last_of path.data '/' with
  | some i => rw [hf] at h; simpa using h
  | none => rw [hf] at h; simpa using h

theorem charsStartWith_mem (start l : List Char) (c : Char)
    (h : charsStartWith (start ++ [c]) l = true) : c ∈ l := by
  induction start generalizing l with
  | nil =>
    cases l with
    | nil => simp [charsStartWith] at h
    | cons b rest =>
      simp only [List.nil_append, charsStartWith] at h
      by_cases hb : c = b
      · rw [hb]; exact List.mem_cons_self _ _
      · rw [if_neg hb] at h; simp at h
  | cons a rest ih =>
    cases l with
    | nil => simp [charsStartWith] at h
    | cons b l1 =>
      simp only [List.cons_append, charsStartWith] at h
      by_cases hb : a = b
      · rw [if_pos hb] at h
        exact List.mem_cons_of_mem _ (ih l1 h)
      · rw [if_neg hb] at h; simp at h

/-- A key without '/' is nobody's sub-setting. -/
theorem isSubSetting_no_slash (key k : String) (h : '/' ∉ k.data) :
    isSubSetting key k = false := by
  rw [Bool.eq_false_iff]
  intro hs
  exact h (charsStartWith_mem key.data k.data '/' hs)

theorem SettingsGroup.value_of_mem (g : SettingsGroup) (k v : String)
    (hnd : (g.map Prod.fst).Nodup) (hm : (k, v) ∈ g) :
    SettingsGroup.value g k = v := by
  induction g with
  | nil => simp at hm
  | cons e rest ih =>
    obtain ⟨k1, v1⟩ := e
    simp only [List.map_cons, List.nodup_cons] at hnd
    simp only [List.mem_cons, Prod.mk.injEq] at hm
    unfold SettingsGroup.value
    rcases hm with ⟨h1, h2⟩ | hm
    · rw [if_pos h1, h2]
    · have hne : k ≠ k1 := by
        intro h
        apply hnd.1
        rw [← h]
        exact List.mem_map_of_mem Prod.fst hm
      rw [if_neg hne]
      exact ih hnd.2 hm

/-- The loop of `loadPersistedImages` over the keys `ks`, in any group: a record
whose key holds no '/' and whose image exists stays in the group, and gets its
tab when its key is visited. -/
theorem loadPersistedImages_keeps (js : JsonCodec) (fileExists : String → Bool)
    (k0 v0 : String) (hslash : '/' ∉ k0.data)
    (hkeep : artifactExists js fileExists v0 = true)
    (ks : List String) (w : MainWindow)
    (hnd : (w.generatedImages.map Prod.fst).Nodup)
    (hks : "" ∉ ks)
    (hmem : (k0, v0) ∈ w.generatedImages) :
    ∃ yielded,
      (ks.foldl (loadPersistedImage js fileExists) w).resultTabs = w.resultTabs ++ yielded ∧
      (k0 ∈ ks → (storedImagePath js v0, v0) ∈ yielded) ∧
      (k0, v0) ∈ (ks.foldl (loadPersistedImage js fileExists) w).generatedImages := by
  induction ks generalizing w with
  | nil => exact ⟨[], by simp, by simp, hmem⟩
  | cons k rest ih =>
    have hk : k ≠ "" := fun h => hks (h ▸ List.mem_cons_self _ _)
    have hrest : "" ∉ rest := fun h => hks (List.mem_cons_of_mem _ h)
    rw [List.foldl_cons]
    by_cases hart : artifactExists js fileExists (w.generatedImages.value k) = true
    · have hstep : loadPersistedImage js fileExists w k
          = addResultTab w (storedImagePath js (w.generatedImages.value k))
              (w.generatedImages.value k) := by
        unfold loadPersistedImage
        simp only [hart, if_true]
      obtain ⟨y, h1, h2, h3⟩ := ih (loadPersistedImage js fileExists w k)
        (by rw [hstep]; exact hnd) hrest (by rw [hstep]; exact hmem)
      refine ⟨(storedImagePath js (w.generatedImages.value k), w.generatedImages.value k)
        :: y, ?_, ?_, h3⟩
      · rw [h1, hstep]; simp [addResultTab]
      · intro hin
        rcases List.mem_cons.mp hin with h | h
        · rw [← h, SettingsGroup.value_of_mem _ k0 v0 hnd hmem]
          exact List.mem_cons_self _ _
        · exact List.mem_cons_of_mem _ (h2 h)
    · have hstep : loadPersistedImage js fileExists w k
          = { w with generatedImages := w.generatedImages.remove k } := by
        unfold loadPersistedImage
        simp only [hart, Bool.false_eq_true, if_false]
      have hk0 : k0 ≠ k := by
        intro h
        apply hart
        rw [← h, SettingsGroup.value_of_mem _ k0 v0 hnd hmem]
        exact hkeep
      have hmem1 : (k0, v0) ∈ w.generatedImages.remove k := by
        unfold SettingsGroup.remove
        rw [if_neg hk]
        refine List.mem_filter.mpr ⟨hmem, ?_⟩
        simp [hk0, isSubSetting_no_slash k k0 hslash]
      have hnd1 : ((w.generatedImages.remove k).map Prod.fst).Nodup := by
        unfold SettingsGroup.remove
        rw [if_neg hk]
        exact hnd.sublist ((List.filter_sublist _).map Prod.fst)
      obtain ⟨y, h1, h2, h3⟩ := ih (loadPersistedImage js fileExists w k)
        (by rw [hstep]; exact hnd1) hrest (by rw [hstep]; exact hmem1)
      refine ⟨y, ?_, ?_, h3⟩
      · rw [h1, hstep]
      · intro hin
        rcases List.mem_cons.mp hin with h | h
        · exact absurd h hk0
        · exact h2 h

theorem orderedInsert_keys_perm {α : Type} (m : List (String × α)) (key : String) (v : α) :
    ((orderedInsert m key v).map Prod.fst).Perm (key :: m.map Prod.fst) := by
  induction m with
  | nil => simp [orderedInsert]
  | cons e rest ih =>
    obtain ⟨k, v0⟩ := e
    unfold orderedInsert
    split
    · simp
    · simp only [List.map_cons]
      exact (List.Perm.cons k ih).trans (List.Perm.swap key k _)

theorem mem_orderedInsert {α : Type} (m : List (String × α)) (key : String) (v : α) :
    (key, v) ∈ orderedInsert m key v := by
  induction m with
  | nil => simp [orderedInsert]
  | cons e rest ih =>
    obtain ⟨k, v0⟩ := e
    unfold orderedInsert
    split
    · simp
    · exact List.mem_cons_of_mem _ ih

theorem assignKey_keys_perm {α : Type} (m : List (String × α)) (key : String) (v : α) :
    ((assignKey m key v).map Prod.fst).Perm (m.map Prod.fst) ∨
    ((assignKey m key v).map Prod.fst).Perm (key :: m.map Prod.fst) ∧
      key ∉ m.map Prod.fst := by
  unfold assignKey
  split
  · left
    have : (m.map (fun e => if e.1 = key then (key, v) else e)).map Prod.fst
        = m.map Prod.fst := by
      rw [List.map_map]
      apply List.map_congr_left
      intro e _
      simp only [Function.comp]
      split
      · rename_i h; exact h.symm
      · rfl
    rw [this]
  · rename_i h
    right
    refine ⟨orderedInsert_keys_perm m key v, ?_⟩
    intro hin
    apply h
    obtain ⟨e, he, hk⟩ := List.mem_map.mp hin
    exact List.any_eq_true.mpr ⟨e, he, by simpa using hk⟩

theorem assignKey_nodup {α : Type} (m : List (String × α)) (key : String) (v : α)
    (h : (m.map Prod.fst).Nodup) : ((assignKey m key v).map Prod.fst).Nodup := by
  rcases assignKey_keys_perm m key v with hp | ⟨hp, hn⟩
  · exact hp.nodup_iff.mpr h
  · exact hp.nodup_iff.mpr (List.nodup_cons.mpr ⟨hn, h⟩)

theorem assignKey_keys_mem {α : Type} (m : List (String × α)) (key : String) (v : α)
    (k : String) (h : k ∈ (assignKey m key v).map Prod.fst) :
    k = key ∨ k ∈ m.map Prod.fst := by
  rcases assignKey_keys_perm m key v with hp | ⟨hp, -⟩
  · exact Or.inr (hp.mem_iff.mp h)
  · simpa using hp.mem_iff.mp h

theorem mem_assignKey {α : Type} (m : List (String × α)) (key : String) (v : α) :
    (key, v) ∈ assignKey m key v := by
  unfold assignKey
  split
  · rename_i h
    obtain ⟨e, he, hk⟩ := List.any_eq_true.mp h
    have hk1 : e.1 = key := by simpa using hk
    exact List.mem_map.mpr ⟨e, he, by rw [if_pos hk1]⟩
  · exact mem_orderedInsert m key v

theorem QJsonObject.value_orderedInsert_ne (obj : QJsonObject) (key : String) (v : QJsonValue)
    (k : String) (h : k ≠ key) :
    QJsonObject.value (orderedInsert obj key v) k = QJsonObject.value obj k := by
  induction obj with
  | nil => simp [orderedInsert, QJsonObject.value, h]
  | cons e rest ih =>
    obtain ⟨k0, v0⟩ := e
    unfold orderedInsert
    split
    · simp [QJsonObject.value, h]
    · simp [QJsonObject.value, ih]

theorem QJsonObject.value_orderedInsert_self (obj : QJsonObject) (key : String)
    (v : QJsonValue) (h : key ∉ obj.map Prod.fst) :
    QJsonObject.value (orderedInsert obj key v) key = v := by
  induction obj with
  | nil => simp [orderedInsert, QJsonObject.value]
  | cons e rest ih =>
    obtain ⟨k0, v0⟩ := e
    simp only [List.map_cons, List.mem_cons, not_or] at h
    unfold orderedInsert
    split
    · simp [QJsonObject.value]
    · simp [QJsonObject.value, h.1, ih h.2]

theorem QJsonObject.value_replace_ne (obj : QJsonObject) (key : String) (v : QJsonValue)
    (k : String) (h : k ≠ key) :
    QJsonObject.value (obj.map (fun e => if e.1 = key then (key, v) else e)) k
      = QJsonObject.value obj k := by
  induction obj with
  | nil => rfl
  | cons e rest ih =>
    obtain ⟨k0, v0⟩ := e
    rw [List.map_cons]
    by_cases hk : k0 = key
    · subst hk
      rw [if_pos rfl]
      simp only [QJsonObject.value]
      rw [if_neg h, if_neg h, ih]
    · rw [if_neg hk]
      simp only [QJsonObject.value]
      rw [ih]

theorem QJsonObject.value_replace_self (obj : QJsonObject) (key : String) (v : QJsonValue)
    (h : key ∈ obj.map Prod.fst) :
    QJsonObject.value (obj.map (fun e => if e.1 = key then (key, v) else e)) key = v := by
  induction obj with
  | nil => simp at h
  | cons e rest ih =>
    obtain ⟨k0, v0⟩ := e
    rw [List.map_cons]
    by_cases hk : k0 = key
    · subst hk
      rw [if_pos rfl]
      simp [QJsonObject.value]
    · have hr : key ∈ rest.map Prod.fst := by
        simp only [List.map_cons, List.mem_cons] at h
        rcases h with h | h
        · exact absurd h.symm hk
        · exact h
      have hk2 : ¬ key = k0 := fun h => hk h.symm
      rw [if_neg hk]
      simp only [QJsonObject.value]
      rw [if_neg hk2, ih hr]

/-- Reading a member after an assignment `obj[key] = v`. -/
theorem QJsonObject.value_insert (obj : QJsonObject) (key : String) (v : QJsonValue)
    (k : String) :
    (obj.insert key v).value k = if k = key then v else obj.value k := by
  unfold QJsonObject.insert assignKey
  by_cases hk : k = key
  · subst hk
    rw [if_pos rfl]
    split
    · rename_i h
      apply QJsonObject.value_replace_self
      obtain ⟨e, he, hk⟩ := List.any_eq_true.mp h
      exact List.mem_map.mpr ⟨e, he, by simpa using hk⟩
    · rename_i h
      apply QJsonObject.value_orderedInsert_self
      intro hin
      apply h
      obtain ⟨e, he, hk⟩ := List.mem_map.mp hin
      exact List.any_eq_true.mpr ⟨e, he, by simpa using hk⟩
  · rw [if_neg hk]
    split
    · exact QJsonObject.value_replace_ne obj key v k hk
    · exact QJsonObject.value_orderedInsert_ne obj key v k hk

/-- The members `mode`, `model`, `prompt` and `output_path` of the object built by
`formatArguments`. -/
theorem formatArgumentsObject_values (p : SDParams) :
    (formatArgumentsObject p).value "mode" = QJsonValue.string (modeName p.mode) ∧
    (formatArgumentsObject p).value "model" = QJsonValue.string p.model_path ∧
    (formatArgumentsObject p).value "prompt"
      = (if p.mode ≠ SDMode.CONVERT then QJsonValue.string p.prompt
         else QJsonValue.undefined) ∧
    (formatArgumentsObject p).value "output_path" = QJsonValue.undefined := by
  have hnil : ∀ k : String, QJsonObject.value [] k = QJsonValue.undefined := fun _ => rfl
  unfold formatArgumentsObject
  by_cases hv : p.vae_path = "" <;> by_cases hm : p.mode = SDMode.CONVERT <;>
    by_cases hn : p.negative_prompt = "" <;>
    simp only [hv, hm, hn, ne_eq, not_true_eq_false, not_false_eq_true, if_true, if_false] <;>
    simp only [QJsonObject.value_insert, hnil] <;>
    simp

/-- A path with a non-empty file name is not empty. -/
theorem fileName_ne_empty (path : String) (h : fileName path ≠ "") : path ≠ "" := by
  intro hp
  apply h
  rw [hp]
  rfl

/-! ## Lemmas on the keys of the arguments and on the trace of the worker -/

theorem assignKey_keys_mem_iff {α : Type} (m : List (String × α)) (key : String) (v : α)
    (k : String) :
    k ∈ (assignKey m key v).map Prod.fst ↔ k = key ∨ k ∈ m.map Prod.fst := by
  constructor
  · exact assignKey_keys_mem m key v k
  · intro h
    rcases h with h | h
    · subst h
      exact List.mem_map.mpr ⟨(k, v), mem_assignKey m k v, rfl⟩
    · rcases assignKey_keys_perm m key v with hp | ⟨hp, -⟩
      · exact hp.mem_iff.mpr h
      · exact hp.mem_iff.mpr (List.mem_cons_of_mem _ h)

theorem QJsonObject.contains_iff (obj : QJsonObject) (k : String) :
    obj.contains k = true ↔ k ∈ obj.map Prod.fst := by
  unfold QJsonObject.contains
  rw [List.any_eq_true]
  constructor
  · rintro ⟨e, he, hk⟩
    exact List.mem_map.mpr ⟨e, he, by simpa using hk⟩
  · intro h
    obtain ⟨e, he, hk⟩ := List.mem_map.mp h
    exact ⟨e, he, by simpa using hk⟩

/-- Membership of a key after an assignment `obj[key] = v`. -/
theorem QJsonObject.contains_insert (obj : QJsonObject) (key : String) (v : QJsonValue)
    (k : String) :
    (obj.insert key v).contains k = true ↔ k = key ∨ obj.contains k = true := by
  rw [QJsonObject.contains_iff, QJsonObject.contains_iff]
  exact assignKey_keys_mem_iff obj key v k

/-- The keys of the object built by `formatArguments`. -/
theorem formatArgumentsObject_contains (p : SDParams) (k : String) :
    (formatArgumentsObject p).contains k = true ↔
      k = "mode" ∨ k = "model" ∨ (k = "vae" ∧ p.vae_path ≠ "") ∨
      (p.mode ≠ SDMode.CONVERT ∧
        (k = "prompt" ∨ (k = "negative_prompt" ∧ p.negative_prompt ≠ "") ∨
          k = "cfg_scale" ∨ k = "width" ∨ k = "height" ∨ k = "steps" ∨ k = "seed")) := by
  have hnil : QJsonObject.contains [] k = true ↔ False := by
    simp [QJsonObject.contains]
  unfold formatArgumentsObject
  by_cases hv : p.vae_path = "" <;> by_cases hm : p.mode = SDMode.CONVERT <;>
    by_cases hn : p.negative_prompt = "" <;>
    simp only [hv, hm, hn, ne_eq, not_true_eq_false, not_false_eq_true, if_true, if_false] <;>
    simp only [QJsonObject.contains_insert] <;>
    rw [hnil] <;>
    simp only [or_false, false_or, and_true, true_and, and_false, false_and,
      or_comm, or_left_comm, or_assoc]

/-- Soundness of `stageAfter`: a trace it accepts obtains and frees the object as
the stages say, and none of its starts frees more than was obtained. -/
theorem stageAfter_sound (r : Resource) (t : List Action) (s s1 : Stage)
    (h : stageAfter r s t = some s1) :
    s.obtainedSoFar + obtained r t = s1.obtainedSoFar ∧
    s.freedSoFar + freed r t = s1.freedSoFar ∧
    (∀ pre ∈ t.inits, s.freedSoFar + freed r pre ≤ s.obtainedSoFar + obtained r pre) := by
  have hle : ∀ u : Stage, u.freedSoFar ≤ u.obtainedSoFar := by
    intro u; cases u <;> simp [Stage.freedSoFar, Stage.obtainedSoFar]
  induction t generalizing s with
  | nil =>
    simp only [stageAfter, Option.some.injEq] at h
    subst h
    simp [obtained, freed, hle]
  | cons a rest ih =>
    have hpre : ∀ (P : List Action → Prop), P [] → (∀ pre ∈ rest.inits, P (a :: pre)) →
        ∀ pre ∈ (a :: rest).inits, P pre := by
      intro P h0 h1 pre hin
      simp only [List.inits, List.mem_cons, List.mem_map] at hin
      rcases hin with rfl | ⟨q, hq, rfl⟩
      · exact h0
      · exact h1 q hq
    cases a with
    | obtain r1 =>
      by_cases hr : r1 = r
      · subst hr
        cases s with
        | fresh =>
          simp only [stageAfter, if_true] at h
          obtain ⟨i1, i2, i3⟩ := ih Stage.held h
          simp only [Stage.obtainedSoFar, Stage.freedSoFar] at i1 i2 i3 ⊢
          refine ⟨?_, ?_, ?_⟩
          · simp only [obtained, List.count_cons_self] at i1 ⊢; omega
          · simp only [freed] at i2 ⊢
            rw [List.count_cons_of_ne (by simp)]; omega
          · apply hpre
            · simp [freed, obtained]
            · intro pre hin
              have := i3 pre hin
              simp only [freed, obtained, List.count_cons_self] at this ⊢
              rw [List.count_cons_of_ne (by simp)]; omega
        | held => simp [stageAfter] at h
        | released => simp [stageAfter] at h
      · simp only [stageAfter, if_neg hr] at h
        obtain ⟨i1, i2, i3⟩ := ih s h
        have hr1 : Action.obtain r ≠ Action.obtain r1 := by
          intro he; injection he with he; exact hr he.symm
        refine ⟨?_, ?_, ?_⟩
        · simp only [obtained] at i1 ⊢
          rw [List.count_cons_of_ne hr1]; exact i1
        · simp only [freed] at i2 ⊢
          rw [List.count_cons_of_ne (by simp)]; exact i2
        · apply hpre
          · simp [freed, obtained, hle]
          · intro pre hin
            have := i3 pre hin
            simp only [freed, obtained] at this ⊢
            rw [List.count_cons_of_ne hr1, List.count_cons_of_ne (by simp)]; exact this
    | free r1 =>
      by_cases hr : r1 = r
      · subst hr
        cases s with
        | held =>
          simp only [stageAfter, if_true] at h
          obtain ⟨i1, i2, i3⟩ := ih Stage.released h
          simp only [Stage.obtainedSoFar, Stage.freedSoFar] at i1 i2 i3 ⊢
          refine ⟨?_, ?_, ?_⟩
          · simp only [obtained] at i1 ⊢
            rw [List.count_cons_of_ne (by simp)]; omega
          · simp only [freed, List.count_cons_self] at i2 ⊢; omega
          · apply hpre
            · simp [freed, obtained]
            · intro pre hin
              have := i3 pre hin
              simp only [freed, obtained, List.count_cons_self] at this ⊢
              rw [List.count_cons_of_ne (by simp)]; omega
        | fresh => simp [stageAfter] at h
        | released => simp [stageAfter] at h
      · simp only [stageAfter, if_neg hr] at h
        obtain ⟨i1, i2, i3⟩ := ih s h
        have hr1 : Action.free r ≠ Action.free r1 := by
          intro he; injection he with he; exact hr he.symm
        refine ⟨?_, ?_, ?_⟩
        · simp only [obtained] at i1 ⊢
          rw [List.count_cons_of_ne (by simp)]; exact i1
        · simp only [freed] at i2 ⊢
          rw [List.count_cons_of_ne hr1]; exact i2
        · apply hpre
          · simp [freed, obtained, hle]
          · intro pre hin
            have := i3 pre hin
            simp only [freed, obtained] at this ⊢
            rw [List.count_cons_of_ne hr1, List.count_cons_of_ne (by simp)]; exact this
    | writeImage p =>
      simp only [stageAfter] at h
      obtain ⟨i1, i2, i3⟩ := ih s h
      refine ⟨?_, ?_, ?_⟩
      · simp only [obtained] at i1 ⊢
        rw [List.count_cons_of_ne (by simp)]; exact i1
      · simp only [freed] at i2 ⊢
        rw [List.count_cons_of_ne (by simp)]; exact i2
      · apply hpre
        · simp [freed, obtained, hle]
        · intro pre hin
          have := i3 pre hin
          simp only [freed, obtained] at this ⊢
          rw [List.count_cons_of_ne (by simp), List.count_cons_of_ne (by simp)]; exact this
    | writeSidecar p x =>
      simp only [stageAfter] at h
      obtain ⟨i1, i2, i3⟩ := ih s h
      refine ⟨?_, ?_, ?_⟩
      · simp only [obtained] at i1 ⊢
        rw [List.count_cons_of_ne (by simp)]; exact i1
      · simp only [freed] at i2 ⊢
        rw [List.count_cons_of_ne (by simp)]; exact i2
      · apply hpre
        · simp [freed, obtained, hle]
        · intro pre hin
          have := i3 pre hin
          simp only [freed, obtained] at this ⊢
          rw [List.count_cons_of_ne (by simp), List.count_cons_of_ne (by simp)]; exact this
    | emit o =>
      simp only [stageAfter] at h
      obtain ⟨i1, i2, i3⟩ := ih s h
      refine ⟨?_, ?_, ?_⟩
      · simp only [obtained] at i1 ⊢
        rw [List.count_cons_of_ne (by simp)]; exact i1
      · simp only [freed] at i2 ⊢
        rw [List.count_cons_of_ne (by simp)]; exact i2
      · apply hpre
        · simp [freed, obtained, hle]
        · intro pre hin
          have := i3 pre hin
          simp only [freed, obtained] at this ⊢
          rw [List.count_cons_of_ne (by simp), List.count_cons_of_ne (by simp)]; exact this

/-- The stage of every object at the end of `run`: freed when the collaborators
handed it out, never obtained otherwise. -/
theorem run_stage (js : JsonCodec) (params_ : SDParams) (c : Collaborators) (r : Resource) :
    stageAfter r Stage.fresh (GenerationWorker.run js params_ c)
      = some (if handsOut params_ c r = true then Stage.released else Stage.fresh) := by
  obtain ⟨cv, ctx, load, gen, wr, tx⟩ := c
  unfold GenerationWorker.run handsOut reachesGeneration
  cases hmode : params_.mode
  · -- TXT2IMG
    simp only [hmode]
    cases r <;> cases ctx <;> cases gen <;> cases wr <;> cases tx <;> rfl
  · -- IMG2IMG
    simp only [hmode]
    cases load with
    | none => cases r <;> cases ctx <;> cases gen <;> rfl
    | some wh =>
      obtain ⟨w, h⟩ := wh
      by_cases hd : w ≠ params_.width ∨ h ≠ params_.height
      · simp only [if_pos hd, decide_eq_true hd]
        cases r <;> cases ctx <;> cases gen <;> cases wr <;> cases tx <;> rfl
      · simp only [if_neg hd, decide_eq_false hd]
        cases r <;> cases ctx <;> cases gen <;> cases wr <;> cases tx <;> rfl
  · -- CONVERT
    simp only [hmode]
    cases r <;> cases ctx <;> cases gen <;> cases load <;> rfl

/-- The `finished` signal is the last call of `run`, and the only one. -/
theorem run_emits_last (js : JsonCodec) (params_ : SDParams) (c : Collaborators) :
    ∃ o, GenerationWorker.run js params_ c
        = (GenerationWorker.run js params_ c).dropLast ++ [Action.emit o] ∧
      emitted (GenerationWorker.run js params_ c).dropLast = [] := by
  obtain ⟨cv, ctx, load, gen, wr, tx⟩ := c
  unfold GenerationWorker.run
  cases hmode : params_.mode
  · -- TXT2IMG
    simp only [hmode]
    cases ctx <;> cases gen <;> cases wr <;> cases tx <;> exact ⟨_, rfl, rfl⟩
  · -- IMG2IMG
    simp only [hmode]
    cases load with
    | none => cases ctx <;> exact ⟨_, rfl, rfl⟩
    | some wh =>
      obtain ⟨w, h⟩ := wh
      by_cases hd : w ≠ params_.width ∨ h ≠ params_.height
      · simp only [if_pos hd]
        cases ctx <;> cases gen <;> cases wr <;> cases tx <;> exact ⟨_, rfl, rfl⟩
      · simp only [if_neg hd]
        cases ctx <;> cases gen <;> cases wr <;> cases tx <;> exact ⟨_, rfl, rfl⟩
  · -- CONVERT
    simp only [hmode]
    exact ⟨_, rfl, rfl⟩

/-! ## The claims -/

/-- C1. In every run of Generate clicks and completion signals without a cancel,
the workers started so far followed by the pending queue are exactly the
accepted submits in submission order (so jobs are handed to workers in that
order, each once, whatever the outcomes were); the number of started workers is
the number of completions plus the running one; when every started job has
completed, no worker is active, the queue is empty, every submitted job was
started, and the completions handled are as many as the N accepted submits;
and from every such state the outstanding completions, whatever their
outcomes, can all be handled and lead to that idle state. -/
theorem fifo_dispatch_order (js : JsonCodec) (evs : List Event) (w : MainWindow)
    (hc : noCancel evs = true) (hr : runEvents js MainWindow.initial evs = some w) :
    w.started ++ w.jobQueue_ = submittedJobs evs ∧
    w.started.length = finishedCount evs + activeJobs w ∧
    (finishedCount evs = w.started.length →
      w.currentWorker_ = none ∧ w.jobQueue_ = [] ∧ w.started = submittedJobs evs ∧
      finishedCount evs = (submittedJobs evs).length) ∧
    (∀ outs : List Outcome, finishedCount evs + outs.length = (submittedJobs evs).length →
      ∃ w1, runEvents js w (outs.map Event.finished) = some w1 ∧
        w1.currentWorker_ = none ∧ w1.jobQueue_ = [] ∧ w1.started = submittedJobs evs ∧
        finishedCount (evs ++ outs.map Event.finished) = (submittedJobs evs).length) := by
  obtain ⟨i1, i2, i3⟩ := runEvents_fifo_invariant js evs w hc hr
  have hlen : w.started.length + w.jobQueue_.length = (submittedJobs evs).length := by
    rw [← i1, List.length_append]
  have hfin : ∀ outs : List Outcome,
      finishedCount (outs.map Event.finished) = outs.length := by
    intro outs
    induction outs with
    | nil => rfl
    | cons o rest ih => simp [finishedCount, ih]
  refine ⟨i1, i2, ?_, ?_⟩
  · intro hf
    have hn : w.currentWorker_ = none := by
      unfold activeJobs at i2
      cases hcw : w.currentWorker_ with
      | none => rfl
      | some x => rw [hcw] at i2; simp at i2; omega
    have hq := i3 hn
    rw [hq] at i1 hlen
    refine ⟨hn, hq, by simpa using i1, ?_⟩
    simp at hlen; omega
  · intro outs hl
    cases hcw : w.currentWorker_ with
    | none =>
      have hq := i3 hcw
      rw [hq] at i1 hlen
      unfold activeJobs at i2
      rw [hcw] at i2
      simp at i2 hlen
      have h0 : outs = [] := List.length_eq_zero.mp (by omega)
      subst h0
      refine ⟨w, rfl, hcw, hq, by simpa using i1, ?_⟩
      simp; omega
    | some x =>
      unfold activeJobs at i2
      rw [hcw] at i2
      simp at i2
      obtain ⟨w1, hr1, h1, h2, h3⟩ :=
        runEvents_drain js w.jobQueue_ w outs (by rw [hcw]; rfl) rfl (by omega)
      refine ⟨w1, hr1, h1, h2, by rw [h3, i1], ?_⟩
      rw [finishedCount_append, hfin]; exact hl

/-- C1 at a concrete trace: two accepted submits, then the completion of both jobs,
the first successful and the second failed. -/
theorem fifo_dispatch_order_witness :
    noCancel demoTrace = true ∧
    ∃ w, runEvents demoJs MainWindow.initial demoTrace = some w ∧
      w.started = [paramsOfForm demoTxt2img, paramsOfForm demoSecond] ∧
      w.jobQueue_ = [] ∧ w.currentWorker_ = none ∧ finishedCount demoTrace = 2 := by
  have hr : (runEvents demoJs MainWindow.initial demoTrace).isSome = true := by decide
  obtain ⟨w, hw⟩ := Option.isSome_iff_exists.mp hr
  obtain ⟨w1, hr1, h1, h2, h3, h4⟩ :=
    (fifo_dispatch_order demoJs demoTrace w (by decide) hw).2.2.2 [] (by decide)
  simp only [List.map_nil, runEvents, Option.some.injEq] at hr1
  subst hr1
  exact ⟨by decide, w, hw, h3.trans (by decide), h2, h1, by decide⟩

/-- C2. The slot `processNextJob` never dispatches twice: with a worker active it
changes nothing; with no worker and a non-empty queue it takes exactly the head,
makes it the running job, starts it, and keeps the other entries in order; with
no worker and an empty queue the window stays idle. Hence in every state
reached by submit, completion and cancel events the workers started and not
yet deleted are exactly the running one, so at most one job is active. -/
theorem processNextJob_single_dispatch (js : JsonCodec) :
    (∀ w : MainWindow, w.currentWorker_.isSome = true → processNextJob w = w) ∧
    (∀ (w : MainWindow) (p : SDParams) (rest : List SDParams),
      w.currentWorker_ = none → w.jobQueue_ = p :: rest →
        (processNextJob w).currentWorker_ = some p ∧
        (processNextJob w).jobQueue_ = rest ∧
        (processNextJob w).completedJobs_ = w.completedJobs_ ∧
        (processNextJob w).started = w.started ++ [p]) ∧
    (∀ w : MainWindow, w.currentWorker_ = none → w.jobQueue_ = [] →
        (processNextJob w).currentWorker_ = none ∧
        (processNextJob w).jobQueue_ = [] ∧
        (processNextJob w).completedJobs_ = w.completedJobs_ ∧
        (processNextJob w).started = w.started ∧
        (processNextJob w).progressBarVisible = false ∧
        (processNextJob w).jobsProgressLabelVisible = false ∧
        (processNextJob w).cancelBtnEnabled = false) ∧
    (∀ (evs : List Event) (w : MainWindow), runEvents js MainWindow.initial evs = some w →
        w.started.length = w.deleted + activeJobs w ∧
        w.started.length - w.deleted ≤ 1) := by
  refine ⟨?_, ?_, ?_, ?_⟩
  · intro w h
    unfold processNextJob
    cases hw : w.currentWorker_ with
    | none => rw [hw] at h; simp at h
    | some x => rfl
  · intro w p rest hw hq
    unfold processNextJob
    rw [hw, hq]
    exact ⟨rfl, rfl, rfl, rfl⟩
  · intro w hw hq
    unfold processNextJob
    rw [hw, hq]
    exact ⟨rfl, rfl, rfl, rfl, rfl, rfl, rfl⟩
  · intro evs w hr
    have h := runEvents_preserves js (fun s => s.started.length = s.deleted + activeJobs s)
      (fun s e s1 hi hs => step_workers js s e s1 hi hs) MainWindow.initial evs w rfl hr
    refine ⟨h, ?_⟩
    have ha : activeJobs w ≤ 1 := by unfold activeJobs; split <;> omega
    omega

/-- C2 at concrete inputs: a dispatch attempt while a job runs changes nothing,
and after two submits and a completion one worker is active. -/
theorem processNextJob_single_dispatch_witness :
    processNextJob (generate MainWindow.initial demoTxt2img)
      = generate MainWindow.initial demoTxt2img ∧
    ∃ w, runEvents demoJs MainWindow.initial
        [Event.generate demoTxt2img, Event.generate demoSecond, Event.finished demoSuccess]
        = some w ∧ w.started.length - w.deleted ≤ 1 := by
  have hr : (runEvents demoJs MainWindow.initial [Event.generate demoTxt2img,
      Event.generate demoSecond, Event.finished demoSuccess]).isSome = true := by decide
  obtain ⟨w, hw⟩ := Option.isSome_iff_exists.mp hr
  exact ⟨(processNextJob_single_dispatch demoJs).1 _ (by decide), w, hw,
    ((processNextJob_single_dispatch demoJs).2.2.2 _ w hw).2⟩

/-- C3, on the code: after two accepted submits the first job runs and the second
waits; `cancelJob` then empties the worker slot and leaves the second job in the
queue, with no worker started for it. -/
theorem cancelJob_leaves_queue_waiting :
    (runEvents demoJs MainWindow.initial
        [Event.generate demoTxt2img, Event.generate demoSecond, Event.cancel]).map
      (fun w => (w.currentWorker_, w.jobQueue_, w.started))
    = some (none, [paramsOfForm demoSecond], [paramsOfForm demoTxt2img]) := by
  decide

/-- C4. With no active worker `cancelJob` changes nothing at all; with an active
worker it empties the worker slot and leaves the pending queue and the
completed count as they were. -/
theorem cancelJob_frame (w : MainWindow) :
    (w.currentWorker_ = none → cancelJob w = w) ∧
    (w.currentWorker_.isSome = true →
      (cancelJob w).currentWorker_ = none ∧
      (cancelJob w).jobQueue_ = w.jobQueue_ ∧
      (cancelJob w).completedJobs_ = w.completedJobs_) := by
  constructor
  · intro h
    unfold cancelJob
    rw [h]
    rfl
  · intro h
    unfold cancelJob
    rw [if_pos h]
    exact ⟨rfl, rfl, rfl⟩

/-- C4 at concrete inputs: a cancel in the initial window, and a cancel while the
first of two submitted jobs runs. -/
theorem cancelJob_frame_witness :
    cancelJob MainWindow.initial = MainWindow.initial ∧
    (cancelJob (generate (generate MainWindow.initial demoTxt2img) demoSecond)).jobQueue_
      = [paramsOfForm demoSecond] ∧
    (cancelJob (generate (generate MainWindow.initial demoTxt2img) demoSecond)).completedJobs_
      = 0 := by
  have h := (cancelJob_frame
    (generate (generate MainWindow.initial demoTxt2img) demoSecond)).2 (by decide)
  exact ⟨(cancelJob_frame MainWindow.initial).1 rfl, h.2.1.trans (by decide),
    h.2.2.trans (by decide)⟩

/-- C5 as stated fails: after one accepted submit and a cancel of the running job
the counter, the queue and the worker slot add up to 0, while one job was
submitted since start-up. -/
theorem progress_accounting_counterexample :
    ∃ w l, runLedger demoJs MainWindow.initial {} [Event.generate demoTxt2img, Event.cancel]
        = some (w, l) ∧
      w.completedJobs_ + (w.jobQueue_.length : Int) + (activeJobs w : Int) = 0 ∧
      l.submitted = 1 := by
  have hr : (runLedger demoJs MainWindow.initial {}
      [Event.generate demoTxt2img, Event.cancel]).isSome = true := by decide
  obtain ⟨⟨w, l⟩, hw⟩ := Option.isSome_iff_exists.mp hr
  refine ⟨w, l, hw, ?_, ?_⟩
  · have : (runLedger demoJs MainWindow.initial {}
        [Event.generate demoTxt2img, Event.cancel]).map
        (fun s => s.1.completedJobs_ + (s.1.jobQueue_.length : Int) + (activeJobs s.1 : Int))
        = some 0 := by decide
    rw [hw] at this
    simpa using this
  · have : (runLedger demoJs MainWindow.initial {}
        [Event.generate demoTxt2img, Event.cancel]).map (fun s => s.2.submitted)
        = some 1 := by decide
    rw [hw] at this
    simpa using this

/-- C5, amended. In every state reached from the initial one by submit, completion
and cancel events, `completedJobs_` plus the length of the pending queue plus
the running job (1 or 0) plus the number of running jobs cancelled equals the
number of jobs submitted, both counted since `completedJobs_` was last reset to
0 (since start-up if it never was). -/
theorem progress_accounting (js : JsonCodec) (evs : List Event) (w : MainWindow) (l : Ledger)
    (hr : runLedger js MainWindow.initial {} evs = some (w, l)) :
    w.completedJobs_ + (w.jobQueue_.length : Int) + (activeJobs w : Int)
      + (l.cancelled : Int) = (l.submitted : Int) :=
  runLedger_preserves js evs MainWindow.initial {} w l rfl hr

/-- C5 amended, at a concrete trace: two submits, a cancel of the running job, a
third submit (which starts the waiting job) and its completion. -/
theorem progress_accounting_witness :
    ∃ w l, runLedger demoJs MainWindow.initial {}
        [Event.generate demoTxt2img, Event.generate demoSecond, Event.cancel,
         Event.generate demoTxt2img, Event.finished demoFailure] = some (w, l) ∧
      w.completedJobs_ + (w.jobQueue_.length : Int) + (activeJobs w : Int)
        + (l.cancelled : Int) = (l.submitted : Int) := by
  have hr : (runLedger demoJs MainWindow.initial {}
      [Event.generate demoTxt2img, Event.generate demoSecond, Event.cancel,
       Event.generate demoTxt2img, Event.finished demoFailure]).isSome = true := by decide
  obtain ⟨⟨w, l⟩, hw⟩ := Option.isSome_iff_exists.mp hr
  exact ⟨w, l, hw, progress_accounting demoJs _ w l hw⟩

/-- C6, on the code: after N accepted submits followed by the completion of all N
jobs, with no cancel, the window is idle and `completedJobs_` is N, not 0: the
counter is not reset when the batch ends. -/
theorem completedJobs_after_batch (js : JsonCodec) (fs : List Form) (outs : List Outcome)
    (hf : ∀ f ∈ fs, f.modelPath_ ≠ "") (hl : outs.length = fs.length) :
    ∃ w, runEvents js MainWindow.initial (fs.map Event.generate ++ outs.map Event.finished)
        = some w ∧
      w.currentWorker_ = none ∧ w.jobQueue_ = [] ∧
      w.completedJobs_ = (fs.length : Int) := by
  obtain ⟨w0, hr0⟩ := runEvents_generate_isSome js fs MainWindow.initial
  obtain ⟨i1, i2, i3⟩ :=
    runEvents_fifo_invariant js (fs.map Event.generate) w0 (noCancel_generate fs) hr0
  rw [submittedJobs_generate fs hf] at i1
  rw [finishedCount_generate] at i2
  have hlen : w0.started.length + w0.jobQueue_.length = fs.length := by
    have := congrArg List.length i1
    simpa using this
  have hdrain : ∃ w, runEvents js w0 (outs.map Event.finished) = some w ∧
      w.currentWorker_ = none ∧ w.jobQueue_ = [] := by
    unfold activeJobs at i2
    cases hcw : w0.currentWorker_ with
    | none =>
      rw [hcw] at i2
      have hq := i3 hcw
      rw [hq, List.length_nil] at hlen
      have i2a : w0.started.length = 0 := by simpa using i2
      have h0 : outs = [] := List.length_eq_zero.mp (by omega)
      subst h0
      exact ⟨w0, rfl, hcw, hq⟩
    | some x =>
      rw [hcw] at i2
      simp at i2
      obtain ⟨w, hr, h1, h2, -⟩ :=
        runEvents_drain js w0.jobQueue_ w0 outs (by rw [hcw]; rfl) rfl (by omega)
      exact ⟨w, hr, h1, h2⟩
  obtain ⟨w, hr, h1, h2⟩ := hdrain
  have hrun : runEvents js MainWindow.initial (fs.map Event.generate ++ outs.map Event.finished)
      = some w := by
    rw [runEvents_append, hr0]
    exact hr
  refine ⟨w, hrun, h1, h2, ?_⟩
  rw [runEvents_completedJobs js _ w hrun, finishedCount_append, finishedCount_generate,
    finishedCount_finished, hl]
  simp

/-- C6 on the code, at N = 1: one accepted submit and the completion of its job
leave the window idle with `completedJobs_` equal to 1. -/
theorem completedJobs_after_batch_witness :
    ∃ w, runEvents demoJs MainWindow.initial
        [Event.generate demoTxt2img, Event.finished demoSuccess] = some w ∧
      w.currentWorker_ = none ∧ w.jobQueue_ = [] ∧ w.completedJobs_ = 1 :=
  completedJobs_after_batch demoJs [demoTxt2img] [demoSuccess] (by decide) rfl

/-- C7. A non-empty model path is all that `generate` asks for: with an empty model
path it returns the window unchanged (queue, counter, worker slot, no worker
started, nothing saved); with a non-empty one, whatever the other fields hold,
the job built from the form is put at the tail of the queue before the dispatch
attempt, so that the running job followed by the pending ones is the old such
sequence with that one job appended, the queue itself gains the job at its
tail while a worker is running, the counter keeps its value, and the job holds
the values of the form field by field. -/
theorem generate_precondition (w : MainWindow) (f : Form) :
    (f.modelPath_ = "" → generate w f = w) ∧
    (f.modelPath_ ≠ "" →
      (generate w f).currentWorker_.toList ++ (generate w f).jobQueue_
        = w.currentWorker_.toList ++ w.jobQueue_ ++ [paramsOfForm f] ∧
      (w.currentWorker_.isSome = true →
        (generate w f).jobQueue_ = w.jobQueue_ ++ [paramsOfForm f] ∧
        (generate w f).currentWorker_ = w.currentWorker_ ∧
        (generate w f).started = w.started) ∧
      (generate w f).completedJobs_ = w.completedJobs_) ∧
    ((paramsOfForm f).mode = f.modeCombo_ ∧
      (paramsOfForm f).model_path = f.modelPath_ ∧
      (paramsOfForm f).vae_path = f.vaePath_ ∧
      (paramsOfForm f).output_path = f.outputPath_ ∧
      (paramsOfForm f).input_path = f.inputPath_ ∧
      (paramsOfForm f).prompt = f.prompt_ ∧
      (paramsOfForm f).negative_prompt = f.negativePrompt_ ∧
      (paramsOfForm f).cfg_scale = f.cfgScale_ ∧
      (paramsOfForm f).guidance = f.guidance_ ∧
      (paramsOfForm f).width = f.width_ ∧
      (paramsOfForm f).height = f.height_ ∧
      (paramsOfForm f).sample_steps = f.steps_ ∧
      (paramsOfForm f).strength = f.strength_ ∧
      (paramsOfForm f).sample_method = f.samplerCombo_ ∧
      (paramsOfForm f).seed = f.seed_ ∧
      (paramsOfForm f).n_threads = f.threads_ ∧
      (paramsOfForm f).verbose = f.verbose_) := by
  refine ⟨generate_rejected w f, ?_,
    rfl, rfl, rfl, rfl, rfl, rfl, rfl, rfl, rfl, rfl, rfl, rfl, rfl, rfl, rfl, rfl, rfl⟩
  intro hm
  obtain ⟨u, hg, hq, hw, hcj, hst, -⟩ := generate_accepted w f hm
  rw [hg, (processNextJob_frame u).1, hcj]
  rcases processNextJob_cases u with
    ⟨x, hx, hp⟩ | ⟨hn, hqn, -, -, -⟩ | ⟨a, t, hn, hqc, hcw, hqt, -⟩
  · rw [hp, hq, hw, hst]
    exact ⟨by simp, fun _ => ⟨rfl, rfl, rfl⟩, rfl⟩
  · rw [hq] at hqn; simp at hqn
  · rw [hcw, hqt]
    rw [hw] at hn
    rw [hq] at hqc
    refine ⟨by rw [hn]; simpa using hqc.symm, ?_, rfl⟩
    intro h
    rw [hn] at h
    simp at h

/-- C7 at concrete inputs: a form without model path is refused, and an
image-to-image form with a model path but empty output and source-image paths
is queued behind the running job. -/
theorem generate_precondition_witness :
    generate (generate MainWindow.initial demoTxt2img) demoNoModel
      = generate MainWindow.initial demoTxt2img ∧
    (generate (generate MainWindow.initial demoTxt2img) demoNoPaths).jobQueue_
      = [paramsOfForm demoNoPaths] := by
  have h1 := (generate_precondition (generate MainWindow.initial demoTxt2img) demoNoModel).1 rfl
  have h2 := ((generate_precondition (generate MainWindow.initial demoTxt2img)
    demoNoPaths).2.1 (by decide)).2.1 (by decide)
  exact ⟨h1, h2.1.trans (by decide)⟩

set_option maxRecDepth 20000 in
/-- C8 as stated fails on a group with a sub-setting: the entry "a" is not a JSON
object, its sub-setting "a/b" is the record of the existing file "out/cat.png";
`remove("a")` takes both away, so no tab is added for the record and the group
ends empty. -/
theorem loadPersistedImages_prunes_counterexample :
    demoNested.generatedImages.allKeys.Nodup ∧ "" ∉ demoNested.generatedImages.allKeys ∧
    ("a/b", demoStoredText demoTxt2img) ∈ demoNested.generatedImages ∧
    storedImagePath demoJs (demoStoredText demoTxt2img) = "out/cat.png" ∧
    demoFiles "out/cat.png" = true ∧
    (loadPersistedImages demoJs demoFiles demoNested).resultTabs = [] ∧
    (loadPersistedImages demoJs demoFiles demoNested).generatedImages = [] := by
  decide

/-- C8, amended. For every content of the "GeneratedImages" group in which no key
names a sub-setting of another key (a map: distinct, non-empty keys) and every
file-system state, `loadPersistedImages` adds a result tab for exactly the
stored records whose `output_path` is non-empty and names an existing file, in
the order of the keys, each with its stored text; no tab is added for a record
whose artifact is missing; afterwards the group holds exactly those records,
unchanged, and every other record is gone. -/
theorem loadPersistedImages_prunes (js : JsonCodec) (fileExists : String → Bool)
    (w : MainWindow)
    (hk : w.generatedImages.allKeys.Nodup) (he : "" ∉ w.generatedImages.allKeys)
    (hflat : w.generatedImages.flat = true) :
    (loadPersistedImages js fileExists w).resultTabs
      = w.resultTabs ++
        (w.generatedImages.filter (fun e => artifactExists js fileExists e.2)).map
          (fun e => (storedImagePath js e.2, e.2)) ∧
    (loadPersistedImages js fileExists w).generatedImages
      = w.generatedImages.filter (fun e => artifactExists js fileExists e.2) ∧
    (∀ e ∈ w.generatedImages,
      (e ∈ (loadPersistedImages js fileExists w).generatedImages ↔
        (storedImagePath js e.2 ≠ "" ∧ fileExists (storedImagePath js e.2) = true)) ∧
      ((storedImagePath js e.2, e.2) ∈
          (w.generatedImages.filter (fun e => artifactExists js fileExists e.2)).map
            (fun e => (storedImagePath js e.2, e.2)) ↔
        (storedImagePath js e.2 ≠ "" ∧ fileExists (storedImagePath js e.2) = true))) := by
  obtain ⟨a, b⟩ := loadPersistedImages_result js fileExists w hk he hflat
  refine ⟨a, b, ?_⟩
  intro e hin
  rw [b]
  constructor
  · simp [List.mem_filter, hin, artifactExists]
  · constructor
    · intro h
      obtain ⟨e1, h1, h2⟩ := List.mem_map.mp h
      have h3 := (List.mem_filter.mp h1).2
      simp only [Prod.mk.injEq] at h2
      rw [h2.2] at h3
      simpa [artifactExists] using h3
    · intro h
      exact List.mem_map.mpr ⟨e, List.mem_filter.mpr ⟨hin, by simpa [artifactExists] using h⟩, rfl⟩

set_option maxRecDepth 20000 in
/-- C8 amended, at a concrete store: one record whose image exists, one whose image
is missing, one whose text is not a JSON object. -/
theorem loadPersistedImages_prunes_witness :
    demoStored.generatedImages.allKeys.Nodup ∧ "" ∉ demoStored.generatedImages.allKeys ∧
    demoStored.generatedImages.flat = true ∧
    (loadPersistedImages demoJs demoFiles demoStored).resultTabs
      = [("out/cat.png", demoStoredText demoTxt2img)] ∧
    (loadPersistedImages demoJs demoFiles demoStored).generatedImages
      = [("cat.png", demoStoredText demoTxt2img)] := by
  have h := loadPersistedImages_prunes demoJs demoFiles demoStored (by decide) (by decide)
    (by decide)
  exact ⟨by decide, by decide, by decide, h.1.trans (by decide), h.2.1.trans (by decide)⟩

/-- C9 as stated fails for a conversion job: the record loaded after the round
trip has no `prompt` member, while the submitted parameters hold the prompt
the form had ("a cat"). -/
theorem store_round_trip_counterexample :
    (paramsOfForm demoConvert).prompt = "a cat" ∧
    (loadPersistedImages demoJs (fun _ => true)
        (saveImageToSettings demoJs MainWindow.initial "out/sd.bin"
          (formatArguments demoJs (paramsOfForm demoConvert)))).resultTabs.map
      (fun t => (t.1, (demoJs.fromJson t.2).value "prompt"))
      = [("out/sd.bin", QJsonValue.undefined)] := by
  decide

/-- C9, amended. Let the arguments of a successful outcome be produced by
`formatArguments` from the job parameters, let the outcome's path name an
existing file (its file name is not empty), and let the JSON reader give back
the two documents written. Then `saveImageToSettings(path, arguments)`
followed by `loadPersistedImages` yields a record with that path whose stored
text has `output_path` equal to the path and `mode` and `model` equal to those
of the job; its `prompt` equals the job's prompt for the two generation modes,
and is absent for a conversion job. -/
theorem store_round_trip (js : JsonCodec) (fileExists : String → Bool) (w : MainWindow)
    (p : SDParams) (path : String)
    (hk : w.generatedImages.allKeys.Nodup) (he : "" ∉ w.generatedImages.allKeys)
    (hname : fileName path ≠ "") (hfile : fileExists path = true)
    (hread : js.fromJson (formatArguments js p) = formatArgumentsObject p)
    (hstored : js.fromJson (js.toJson JsonFormat.Compact
        ((formatArgumentsObject p).insert "output_path" (QJsonValue.string path)))
      = (formatArgumentsObject p).insert "output_path" (QJsonValue.string path)) :
    ∃ stored yielded,
      (loadPersistedImages js fileExists
        (saveImageToSettings js w path (formatArguments js p))).resultTabs
        = w.resultTabs ++ yielded ∧
      (path, stored) ∈ yielded ∧
      (fileName path, stored) ∈ (loadPersistedImages js fileExists
        (saveImageToSettings js w path (formatArguments js p))).generatedImages ∧
      (js.fromJson stored).value "output_path" = QJsonValue.string path ∧
      (js.fromJson stored).value "mode" = QJsonValue.string (modeName p.mode) ∧
      (js.fromJson stored).value "model" = QJsonValue.string p.model_path ∧
      (p.mode ≠ SDMode.CONVERT →
        (js.fromJson stored).value "prompt" = QJsonValue.string p.prompt) ∧
      (p.mode = SDMode.CONVERT →
        (js.fromJson stored).value "prompt" = QJsonValue.undefined) := by
  obtain ⟨v1, v2, v3, -⟩ := formatArgumentsObject_values p
  have hgroup : (saveImageToSettings js w path (formatArguments js p)).generatedImages
      = assignKey w.generatedImages (fileName path) (js.toJson JsonFormat.Compact
          ((formatArgumentsObject p).insert "output_path" (QJsonValue.string path))) := by
    simp only [saveImageToSettings, SettingsGroup.setValue, if_neg hname, hread]
  have hk1 : (saveImageToSettings js w path (formatArguments js p)).generatedImages.allKeys.Nodup := by
    rw [hgroup]
    exact assignKey_nodup _ _ _ hk
  have he1 : "" ∉ (saveImageToSettings js w path
      (formatArguments js p)).generatedImages.allKeys := by
    rw [hgroup]
    intro hin
    rcases assignKey_keys_mem _ _ _ _ hin with h | h
    · exact hname h.symm
    · exact he h
  have hpath : storedImagePath js (js.toJson JsonFormat.Compact
      ((formatArgumentsObject p).insert "output_path" (QJsonValue.string path))) = path := by
    unfold storedImagePath
    rw [hstored, QJsonObject.value_insert, if_pos rfl]
    rfl
  have hkeep : artifactExists js fileExists (js.toJson JsonFormat.Compact
      ((formatArgumentsObject p).insert "output_path" (QJsonValue.string path))) = true := by
    unfold artifactExists
    rw [hpath, hfile]
    simpa using fileName_ne_empty path hname
  have hmem : (fileName path, js.toJson JsonFormat.Compact
      ((formatArgumentsObject p).insert "output_path" (QJsonValue.string path)))
      ∈ (saveImageToSettings js w path (formatArguments js p)).generatedImages := by
    rw [hgroup]
    exact mem_assignKey _ _ _
  obtain ⟨yielded, a, b, c⟩ := loadPersistedImages_keeps js fileExists (fileName path) _
    (fileName_no_slash path) hkeep
    (saveImageToSettings js w path (formatArguments js p)).generatedImages.allKeys
    (saveImageToSettings js w path (formatArguments js p)) hk1 he1 hmem
  have hrt : (saveImageToSettings js w path (formatArguments js p)).resultTabs
      = w.resultTabs := rfl
  refine ⟨_, yielded, by rw [← hrt]; exact a, ?_, c, ?_, ?_, ?_, ?_, ?_⟩
  · have := b (List.mem_map_of_mem Prod.fst hmem)
    rw [hpath] at this
    exact this
  · rw [hstored, QJsonObject.value_insert, if_pos rfl]
  · rw [hstored, QJsonObject.value_insert, if_neg (by decide), v1]
  · rw [hstored, QJsonObject.value_insert, if_neg (by decide), v2]
  · intro hm
    rw [hstored, QJsonObject.value_insert, if_neg (by decide), v3, if_pos hm]
  · intro hm
    rw [hstored, QJsonObject.value_insert, if_neg (by decide), v3, if_neg (not_not.mpr hm)]

/-- C9 amended, at a concrete input: the text-to-image job of `demoTxt2img`, its
image "out/cat.png" on disk, the stand-in codec. -/
theorem store_round_trip_witness :
    ∃ stored, (fileName "out/cat.png", stored) ∈
        (loadPersistedImages demoJs demoFiles
          (saveImageToSettings demoJs MainWindow.initial "out/cat.png"
            (formatArguments demoJs (paramsOfForm demoTxt2img)))).generatedImages ∧
      (demoJs.fromJson stored).value "output_path" = QJsonValue.string "out/cat.png" ∧
      (demoJs.fromJson stored).value "prompt" = QJsonValue.string "a cat" := by
  obtain ⟨stored, yielded, -, -, h3, h4, -, -, h7, -⟩ :=
    store_round_trip demoJs demoFiles MainWindow.initial (paramsOfForm demoTxt2img)
      "out/cat.png" (by decide) (by decide) (by decide) (by decide) (by decide) (by decide)
  exact ⟨stored, h3, h4, h7 (by decide)⟩

/-- C10, on the code: for the output path "out.d/img", whose file name has no
extension and whose directory contains a '.', `GenerationWorker::run` computes the sidecar name
"out.txt", cut at the '.' of the directory, while the name the specification
asks for is "out.d/img.txt", beside the image. -/
theorem txt_path_dotted_directory :
    txt_path "out.d/img" = "out.txt" ∧ sidecarOfSpec "out.d/img" = "out.d/img.txt" := by
  decide

/-- C11. The document of `formatArguments` is the indented text of an object that
always has the keys mode and model, the value of mode being "txt2img",
"img2img" or "convert" according to the job's mode; it has the key vae exactly
when the VAE path is not empty; in the two generation modes it has prompt,
cfg_scale, width, height, steps and seed, and negative_prompt exactly when the
negative prompt is not empty; for a conversion it has none of these seven
keys; and it has no key besides these ten. -/
theorem formatArguments_keys (js : JsonCodec) (p : SDParams) :
    formatArguments js p = js.toJson JsonFormat.Indented (formatArgumentsObject p) ∧
    (formatArgumentsObject p).contains "mode" = true ∧
    (formatArgumentsObject p).contains "model" = true ∧
    (p.mode = SDMode.TXT2IMG →
      (formatArgumentsObject p).value "mode" = QJsonValue.string "txt2img") ∧
    (p.mode = SDMode.IMG2IMG →
      (formatArgumentsObject p).value "mode" = QJsonValue.string "img2img") ∧
    (p.mode = SDMode.CONVERT →
      (formatArgumentsObject p).value "mode" = QJsonValue.string "convert") ∧
    ((formatArgumentsObject p).contains "vae" = true ↔ p.vae_path ≠ "") ∧
    (p.mode ≠ SDMode.CONVERT →
      (formatArgumentsObject p).contains "prompt" = true ∧
      (formatArgumentsObject p).contains "cfg_scale" = true ∧
      (formatArgumentsObject p).contains "width" = true ∧
      (formatArgumentsObject p).contains "height" = true ∧
      (formatArgumentsObject p).contains "steps" = true ∧
      (formatArgumentsObject p).contains "seed" = true ∧
      ((formatArgumentsObject p).contains "negative_prompt" = true ↔
        p.negative_prompt ≠ "")) ∧
    (p.mode = SDMode.CONVERT →
      (formatArgumentsObject p).contains "prompt" = false ∧
      (formatArgumentsObject p).contains "negative_prompt" = false ∧
      (formatArgumentsObject p).contains "cfg_scale" = false ∧
      (formatArgumentsObject p).contains "width" = false ∧
      (formatArgumentsObject p).contains "height" = false ∧
      (formatArgumentsObject p).contains "steps" = false ∧
      (formatArgumentsObject p).contains "seed" = false) ∧
    (∀ k : String, (formatArgumentsObject p).contains k = true →
      k ∈ ["mode", "model", "vae", "prompt", "negative_prompt", "cfg_scale", "width",
        "height", "steps", "seed"]) := by
  have hmode := (formatArgumentsObject_values p).1
  have hno : ∀ k : String, k ≠ "mode" → k ≠ "model" → k ≠ "vae" → p.mode = SDMode.CONVERT →
      (formatArgumentsObject p).contains k = false := by
    intro k h1 h2 h3 hm
    rw [Bool.eq_false_iff]
    intro hc
    rcases (formatArgumentsObject_contains p k).mp hc with h | h | h | h
    · exact h1 h
    · exact h2 h
    · exact h3 h.1
    · exact h.1 hm
  refine ⟨rfl, ?_, ?_, ?_, ?_, ?_, ?_, ?_, ?_, ?_⟩
  · exact (formatArgumentsObject_contains p "mode").mpr (Or.inl rfl)
  · exact (formatArgumentsObject_contains p "model").mpr (Or.inr (Or.inl rfl))
  · intro hm; rw [hmode, hm]; rfl
  · intro hm; rw [hmode, hm]; rfl
  · intro hm; rw [hmode, hm]; rfl
  · rw [formatArgumentsObject_contains]
    constructor
    · rintro (h | h | h | h)
      · exact absurd h (by decide)
      · exact absurd h (by decide)
      · exact h.2
      · rcases h.2 with h | h | h | h | h | h | h
        · exact absurd h (by decide)
        · exact absurd h.1 (by decide)
        · exact absurd h (by decide)
        · exact absurd h (by decide)
        · exact absurd h (by decide)
        · exact absurd h (by decide)
        · exact absurd h (by decide)
    · intro h
      exact Or.inr (Or.inr (Or.inl ⟨rfl, h⟩))
  · intro hm
    refine ⟨?_, ?_, ?_, ?_, ?_, ?_, ?_⟩
    · exact (formatArgumentsObject_contains p _).mpr (Or.inr (Or.inr (Or.inr ⟨hm, Or.inl rfl⟩)))
    · exact (formatArgumentsObject_contains p _).mpr
        (Or.inr (Or.inr (Or.inr ⟨hm, Or.inr (Or.inr (Or.inl rfl))⟩)))
    · exact (formatArgumentsObject_contains p _).mpr
        (Or.inr (Or.inr (Or.inr ⟨hm, Or.inr (Or.inr (Or.inr (Or.inl rfl)))⟩)))
    · exact (formatArgumentsObject_contains p _).mpr
        (Or.inr (Or.inr (Or.inr ⟨hm, Or.inr (Or.inr (Or.inr (Or.inr (Or.inl rfl))))⟩)))
    · exact (formatArgumentsObject_contains p _).mpr
        (Or.inr (Or.inr (Or.inr ⟨hm, Or.inr (Or.inr (Or.inr (Or.inr (Or.inr (Or.inl rfl)))))⟩)))
    · exact (formatArgumentsObject_contains p _).mpr
        (Or.inr (Or.inr (Or.inr ⟨hm, Or.inr (Or.inr (Or.inr (Or.inr (Or.inr (Or.inr rfl)))))⟩)))
    · rw [formatArgumentsObject_contains]
      constructor
      · rintro (h | h | h | h)
        · exact absurd h (by decide)
        · exact absurd h (by decide)
        · exact absurd h.1 (by decide)
        · rcases h.2 with h | h | h | h | h | h | h
          · exact absurd h (by decide)
          · exact h.2
          · exact absurd h (by decide)
          · exact absurd h (by decide)
          · exact absurd h (by decide)
          · exact absurd h (by decide)
          · exact absurd h (by decide)
      · intro h
        exact Or.inr (Or.inr (Or.inr ⟨hm, Or.inr (Or.inl ⟨rfl, h⟩)⟩))
  · intro hm
    exact ⟨hno _ (by decide) (by decide) (by decide) hm,
      hno _ (by decide) (by decide) (by decide) hm,
      hno _ (by decide) (by decide) (by decide) hm,
      hno _ (by decide) (by decide) (by decide) hm,
      hno _ (by decide) (by decide) (by decide) hm,
      hno _ (by decide) (by decide) (by decide) hm,
      hno _ (by decide) (by decide) (by decide) hm⟩
  · intro k hk
    rcases (formatArgumentsObject_contains p k).mp hk with
      h | h | h | ⟨-, h | h | h | h | h | h | h⟩
    all_goals first
      | (subst h; decide)
      | (obtain ⟨h, -⟩ := h; subst h; decide)

/-- C11 at concrete inputs: the text-to-image job of `demoTxt2img` has the key
prompt and no key vae, the conversion job of `demoConvert` has no key prompt. -/
theorem formatArguments_keys_witness :
    (formatArgumentsObject (paramsOfForm demoTxt2img)).contains "prompt" = true ∧
    (formatArgumentsObject (paramsOfForm demoTxt2img)).contains "vae" = false ∧
    (formatArgumentsObject (paramsOfForm demoConvert)).contains "prompt" = false ∧
    (formatArgumentsObject (paramsOfForm demoConvert)).value "mode"
      = QJsonValue.string "convert" := by
  have h1 := formatArguments_keys demoJs (paramsOfForm demoTxt2img)
  have h2 := formatArguments_keys demoJs (paramsOfForm demoConvert)
  refine ⟨(h1.2.2.2.2.2.2.2.1 (by decide)).1, ?_, (h2.2.2.2.2.2.2.2.2.1 rfl).1,
    h2.2.2.2.2.2.1 rfl⟩
  rw [Bool.eq_false_iff]
  intro hc
  exact (h1.2.2.2.2.2.2.1.mp hc) rfl

/-- C12 as stated fails: in the runs of an image-to-image job in which the engine
context cannot be created, the source image cannot be read, and the image file
cannot be written, the messages of the failed outcomes are "Failed to
initialize SD context", "Failed to load input image" and "Generation failed",
none of them the message the claim names. -/
theorem run_failure_messages_counterexample :
    (emitted (GenerationWorker.run demoJs demoImg2img demoNoContext)).map
        (fun o => (o.success, o.message, o.imagePath))
      = [(false, "Failed to initialize SD context", "")] ∧
    (emitted (GenerationWorker.run demoJs demoImg2img demoNoImage)).map
        (fun o => (o.success, o.message, o.imagePath))
      = [(false, "Failed to load input image", "")] ∧
    (emitted (GenerationWorker.run demoJs demoImg2img demoNoWrite)).map
        (fun o => (o.success, o.message, o.imagePath))
      = [(false, "Generation failed", "")] ∧
    "Failed to initialize SD context" ≠ "context init failed" ∧
    "Failed to load input image" ≠ "image load failed" ∧
    "Generation failed" ≠ "write failed" := by
  decide

/-- C12, amended. In a generation-mode run every failure gives one failed outcome
with an empty artifact path: when `new_sd_ctx` returns null its message is
"Failed to initialize SD context"; when the source image of an image-to-image
job cannot be read it is "Failed to load input image"; when the image returned
by the generation call cannot be written it is "Generation failed", the same
message as when the generation call returns no image. -/
theorem run_failure_messages (js : JsonCodec) (params_ : SDParams) (c : Collaborators)
    (hm : params_.mode ≠ SDMode.CONVERT) :
    (c.new_sd_ctx = false →
      emitted (GenerationWorker.run js params_ c)
        = [{ success := false, message := "Failed to initialize SD context", imagePath := "",
             arguments := formatArguments js params_ }]) ∧
    (c.new_sd_ctx = true → params_.mode = SDMode.IMG2IMG → c.stbi_load = none →
      emitted (GenerationWorker.run js params_ c)
        = [{ success := false, message := "Failed to load input image", imagePath := "",
             arguments := formatArguments js params_ }]) ∧
    (reachesGeneration params_ c = true → c.generation = GenerationResult.image →
      c.stbi_write_png = false →
      emitted (GenerationWorker.run js params_ c)
        = [{ success := false, message := "Generation failed", imagePath := "",
             arguments := formatArguments js params_ }]) ∧
    (reachesGeneration params_ c = true → c.generation ≠ GenerationResult.image →
      emitted (GenerationWorker.run js params_ c)
        = [{ success := false, message := "Generation failed", imagePath := "",
             arguments := formatArguments js params_ }]) := by
  obtain ⟨cv, ctx, load, gen, wr, tx⟩ := c
  unfold GenerationWorker.run reachesGeneration
  cases hmode : params_.mode
  · -- TXT2IMG
    simp only [hmode]
    refine ⟨?_, ?_, ?_, ?_⟩
    · intro h; subst h; rfl
    · intro _ h; exact absurd h (by decide)
    · intro h1 h2 h3
      subst h2 h3
      cases ctx
      · simp at h1
      · cases tx <;> rfl
    · intro h1 h2
      cases ctx
      · simp at h1
      · cases gen
        · rfl
        · rfl
        · exact absurd rfl h2
  · -- IMG2IMG
    simp only [hmode]
    refine ⟨?_, ?_, ?_, ?_⟩
    · intro h; subst h; rfl
    · intro h1 _ h2; subst h1 h2; rfl
    · intro h1 h2 h3
      subst h2 h3
      cases ctx
      · simp at h1
      · cases load with
        | none => simp at h1
        | some wh =>
          obtain ⟨w, h⟩ := wh
          by_cases hd : w ≠ params_.width ∨ h ≠ params_.height
          · simp only [if_pos hd]; cases tx <;> rfl
          · simp only [if_neg hd]; cases tx <;> rfl
    · intro h1 h2
      cases ctx
      · simp at h1
      · cases load with
        | none => simp at h1
        | some wh =>
          obtain ⟨w, h⟩ := wh
          by_cases hd : w ≠ params_.width ∨ h ≠ params_.height
          · simp only [if_pos hd]
            cases gen
            · rfl
            · rfl
            · exact absurd rfl h2
          · simp only [if_neg hd]
            cases gen
            · rfl
            · rfl
            · exact absurd rfl h2
  · exact absurd hmode hm

/-- C12 amended, at a concrete run: an image-to-image job whose source image is
read, whose generation returns an image, and whose image file cannot be
written. -/
theorem run_failure_messages_witness :
    demoImg2img.mode ≠ SDMode.CONVERT ∧
    emitted (GenerationWorker.run demoJs demoImg2img demoNoWrite)
      = [{ success := false, message := "Generation failed", imagePath := "",
           arguments := formatArguments demoJs demoImg2img }] :=
  ⟨by decide,
    (run_failure_messages demoJs demoImg2img demoNoWrite (by decide)).2.2.1
      (by decide) (by decide) (by decide)⟩

/-- C13. In every run of the worker and for every combination of collaborator
results, each native object (the engine context, the source image read, the
resized buffer, the result array, its first image buffer) is obtained once
when the collaborators hand it out and never otherwise, is freed exactly as
often as it is obtained, and is never freed before it was obtained; the
`finished` signal is emitted once, as the last call, after every free. -/
theorem run_frees_what_it_obtains (js : JsonCodec) (params_ : SDParams) (c : Collaborators) :
    (∀ r : Resource,
      obtained r (GenerationWorker.run js params_ c)
        = (if handsOut params_ c r = true then 1 else 0) ∧
      freed r (GenerationWorker.run js params_ c)
        = obtained r (GenerationWorker.run js params_ c) ∧
      (∀ pre : List Action, pre <+: GenerationWorker.run js params_ c →
        freed r pre ≤ obtained r pre)) ∧
    (∃ o, GenerationWorker.run js params_ c
        = (GenerationWorker.run js params_ c).dropLast ++ [Action.emit o] ∧
      emitted (GenerationWorker.run js params_ c).dropLast = [] ∧
      (∀ r : Resource, freed r (GenerationWorker.run js params_ c).dropLast
        = freed r (GenerationWorker.run js params_ c))) := by
  constructor
  · intro r
    obtain ⟨h1, h2, h3⟩ := stageAfter_sound r _ Stage.fresh _ (run_stage js params_ c r)
    simp only [Stage.obtainedSoFar, Stage.freedSoFar, Nat.zero_add] at h1 h2 h3
    refine ⟨?_, ?_, fun pre hpre => h3 pre ((List.mem_inits _ _).mpr hpre)⟩
    · by_cases hh : handsOut params_ c r = true
      · rw [if_pos hh] at h1 ⊢; exact h1
      · rw [if_neg hh] at h1 ⊢; exact h1
    · by_cases hh : handsOut params_ c r = true
      · rw [if_pos hh] at h1 h2; rw [h1, h2]
      · rw [if_neg hh] at h1 h2; rw [h1, h2]
  · obtain ⟨o, h1, h2⟩ := run_emits_last js params_ c
    refine ⟨o, h1, h2, ?_⟩
    intro r
    have h3 : freed r (GenerationWorker.run js params_ c)
        = freed r ((GenerationWorker.run js params_ c).dropLast ++ [Action.emit o]) := by
      rw [← h1]
    rw [h3]
    simp [freed, List.count_append]

/-- C13 at a concrete run: an image-to-image job whose source image has another
size than asked for and whose image file cannot be written; the engine context
and the resized buffer are each obtained once and freed once. -/
theorem run_frees_what_it_obtains_witness :
    obtained Resource.sd_ctx (GenerationWorker.run demoJs demoImg2img demoNoWrite) = 1 ∧
    freed Resource.sd_ctx (GenerationWorker.run demoJs demoImg2img demoNoWrite) = 1 ∧
    obtained Resource.resized (GenerationWorker.run demoJs demoImg2img demoNoWrite) = 1 ∧
    freed Resource.resized (GenerationWorker.run demoJs demoImg2img demoNoWrite) = 1 := by
  have h := (run_frees_what_it_obtains demoJs demoImg2img demoNoWrite).1
  have a := h Resource.sd_ctx
  have b := h Resource.resized
  exact ⟨a.1.trans (by decide), a.2.1.trans (a.1.trans (by decide)),
    b.1.trans (by decide), b.2.1.trans (b.1.trans (by decide))⟩

end SDQt
